import Mathlib

/-!
Shallow embedding of the rasterization-and-classification core of
lidarview.cpp (functions gridify and find_ground), and proofs about it.

Floating-point values of the source are embedded as rationals; the float
computations on the concrete inputs used below are exact, so the embedded
runs coincide with the source's runs on those inputs.  The cell size delta
is produced in the source by a float sqrt, so gridify takes delta as a
parameter; the defining relation delta * delta * num_cells = h * w is
stated alongside the concrete instances.
-/

/- The Batteries rational operations are irreducible by default, which
blocks kernel evaluation of concrete runs; making them semireducible lets
decide evaluate the embedded programs on concrete inputs. -/
unseal Rat.sub Rat.add Rat.mul Rat.inv Rat.ofScientific

namespace LidarView

/-- NODATA sentinel for empty grid cells (lidarview.cpp line 66). -/
def NODATA : ℚ := -9999

/-- BIGINT = 0x0fffffff, the initial minimum of the seed search (line 68).
As a float this constant rounds to 268435456; all concrete grid values used
below are exactly representable floats on the same side of both bounds, so
the comparison against the exact integer matches the source. -/
def BIGINT : ℚ := 268435455

/-- One lidar point record (struct _lidarPoint, lines 45-52). -/
structure LidarPoint where
  x : ℚ
  y : ℚ
  z : ℚ
  nb_of_returns : ℤ
  return_number : ℤ
  code : ℤ
deriving DecidableEq

/-- The bounding box globals minx..maxz (line 65). -/
structure BBox where
  minx : ℚ
  maxx : ℚ
  miny : ℚ
  maxy : ℚ
  minz : ℚ
  maxz : ℚ
deriving DecidableEq

/-- Bounding-box update for one more point (readPointsFromFile, lines 356-362). -/
def updateBBox (b : BBox) (p : LidarPoint) : BBox :=
  ⟨min b.minx p.x, max b.maxx p.x, min b.miny p.y, max b.maxy p.y,
   min b.minz p.z, max b.maxz p.z⟩

/-- Bounding box of the whole point list: the first point initializes it
(lines 352-355), later points update it. None for an empty list, where the
source leaves the globals untouched. -/
def computeBBox : List LidarPoint → Option BBox
  | [] => none
  | p :: ps => some (ps.foldl updateBBox ⟨p.x, p.x, p.y, p.y, p.z, p.z⟩)

/-- A float grid (vector of rows) of the source. -/
abbrev QGrid := List (List ℚ)

/-- The classification grid is_ground: -1 unvisited, 0 building, 1 ground. -/
abbrev IGrid := List (List ℤ)

/-- A grid of per-cell sample lists (first_returns / last_returns). -/
abbrev SGrid := List (List (List ℚ))

/-- Number of columns, read as the source reads it: the length of row 0
(for example last_grid[0].size(), line 919). -/
def numCols (g : QGrid) : ℕ := (g.headD []).length

/-- Reading grid[i][j].  An out-of-range read is undefined behavior in the
source; the embedding returns a default, and every read performed by the
embedded algorithms on well-formed grids is in range. -/
def getCell (g : QGrid) (i j : ℕ) : ℚ := (g.getD i []).getD j 0

/-- Reading is_ground[i][j]; default -1 out of range. -/
def getLabel (ig : IGrid) (i j : ℕ) : ℤ := (ig.getD i []).getD j (-1)

/-- Writing is_ground[i][j] = v.  List.set ignores out-of-range writes,
which are undefined behavior in the source. -/
def setLabel (ig : IGrid) (i j : ℕ) (v : ℤ) : IGrid :=
  ig.set i ((ig.getD i []).set j v)

/-- Writing a rational grid cell. -/
def setQ (g : QGrid) (i j : ℕ) (v : ℚ) : QGrid :=
  g.set i ((g.getD i []).set j v)

/-- The sample list of one cell of first_returns / last_returns. -/
def getSamples (s : SGrid) (i j : ℕ) : List ℚ := (s.getD i []).getD j []

/-- first_returns[r][c].push_back(z) (lines 263, 267).  A write with a
negative or too large index is undefined behavior in the source (see the
index-bounds theorem below); the embedding makes it a no-op. -/
def pushSample (s : SGrid) (r c : ℤ) (z : ℚ) : SGrid :=
  if 0 ≤ r ∧ 0 ≤ c then
    s.set r.toNat ((s.getD r.toNat []).set c.toNat (getSamples s r.toNat c.toNat ++ [z]))
  else s

/-- row = floor((y - miny)/delta) (line 259). -/
def rowIndex (miny delta y : ℚ) : ℤ := ⌊(y - miny) / delta⌋

/-- col = floor((x - minx)/delta) (line 260). -/
def colIndex (minx delta x : ℚ) : ℤ := ⌊(x - minx) / delta⌋

/-- rows = ceil(h/delta) (line 246). -/
def gridRows (h delta : ℚ) : ℤ := ⌈h / delta⌉

/-- cols = ceil(w/delta) (line 247). -/
def gridCols (w delta : ℚ) : ℤ := ⌈w / delta⌉

/-- Binning of one point (loop body, lines 256-269).  The first-return test
is return_number == 1; the last-return test is the source's literal
condition return_number == return_number (line 266), kept verbatim. -/
def binStep (minx miny delta : ℚ) (st : SGrid × SGrid) (p : LidarPoint) : SGrid × SGrid :=
  let r := rowIndex miny delta p.y
  let c := colIndex minx delta p.x
  let fr := if p.return_number = 1 then pushSample st.1 r c p.z else st.1
  let lr := if p.return_number = p.return_number then pushSample st.2 r c p.z else st.2
  (fr, lr)

/-- The whole binning pass over the point list (lines 250-269). -/
def binPoints (pts : List LidarPoint) (minx miny delta : ℚ) (rows cols : ℕ) :
    SGrid × SGrid :=
  let init : SGrid := List.replicate rows (List.replicate cols [])
  pts.foldl (binStep minx miny delta) (init, init)

/-- Index pairs of the averaging double loop (lines 279-280).  Both loops
are bounded by first_returns.size(), i.e. by the number of rows: the inner
loop does not run over the columns.  This reproduces the source verbatim. -/
def avgScan (n : ℕ) : List (ℕ × ℕ) :=
  (List.range n).bind (fun i => (List.range n).map (fun j => (i, j)))

/-- Averaging of one cell and the running minimum elevation
(lines 281-311). -/
def avgStep (fr lr : SGrid) (st : QGrid × QGrid × ℚ) (ij : ℕ × ℕ) :
    QGrid × QGrid × ℚ :=
  let hs := getSamples fr ij.1 ij.2
  let ds := getSamples lr ij.1 ij.2
  let height_sum : ℚ := hs.foldl (· + ·) 0
  let depth_sum : ℚ := ds.foldl (· + ·) 0
  let ah := if 0 < hs.length then setQ st.1 ij.1 ij.2 (height_sum / (hs.length : ℚ)) else st.1
  let ad := if 0 < ds.length then setQ st.2.1 ij.1 ij.2 (depth_sum / (ds.length : ℚ)) else st.2.1
  let me := if getCell ah ij.1 ij.2 ≠ NODATA ∧ getCell ah ij.1 ij.2 < st.2.2
            then getCell ah ij.1 ij.2 else st.2.2
  (ah, ad, me)

/-- The grids gridify builds: elevation (avg_height), last_grid (avg_depth)
and min_elevation. -/
structure GridifyResult where
  avg_height : QGrid
  avg_depth : QGrid
  min_elevation : ℚ
deriving DecidableEq

/-- gridify (lines 236-319) without the trailing find_ground call.  delta
is passed in: the source computes delta = sqrt(h*w/num_cells) in float
(lines 237-244), and num_cells = points.size()/point_density by integer
division; the concrete instances below record delta*delta*num_cells = h*w.
There is no emptiness or degeneracy check in the source: the function is
total and never reports an error. -/
def gridify (pts : List LidarPoint) (minx maxx miny maxy maxz delta : ℚ) :
    GridifyResult :=
  let h := maxy - miny
  let w := maxx - minx
  let rows := (gridRows h delta).toNat
  let cols := (gridCols w delta).toNat
  let bins := binPoints pts minx miny delta rows cols
  let st0 : QGrid × QGrid × ℚ :=
    (List.replicate rows (List.replicate cols NODATA),
     List.replicate rows (List.replicate cols NODATA), maxz)
  let res := (avgScan rows).foldl (avgStep bins.1 bins.2) st0
  ⟨res.1, res.2.1, res.2.2⟩

/-- The state of find_ground between loop steps.  ig and q and count are
the source's is_ground, q and unclassified_count.  lab_log and passes are
ghost observers that change nothing: lab_log records every write to
is_ground in order, passes counts the iterations of the outer do-while. -/
structure FGState where
  ig : IGrid
  q : List (ℕ × ℕ × ℚ)
  count : ℤ
  lab_log : List (ℕ × ℕ)
  passes : ℕ
deriving DecidableEq

/-- Scan order of the nested loops over all cells (lines 940-941): row i
runs, inner bound last_grid[i].size(). -/
def scanOrder (g : QGrid) : List (ℕ × ℕ) :=
  (List.range g.length).bind (fun i => (List.range ((g.getD i []).length)).map (fun j => (i, j)))

/-- unclassified_count after the NODATA subtraction (lines 926-932). -/
def initCount (g : QGrid) : ℤ :=
  ((g.length * numCols g : ℕ) : ℤ) -
    ((((scanOrder g).filter (fun ij => getCell g ij.1 ij.2 = NODATA)).length : ℕ) : ℤ)

/-- One comparison of the seed search (lines 942-948): a strictly lower
unclassified non-NODATA cell replaces the running minimum. -/
def seedScan (g : QGrid) (ig : IGrid) (acc : ℚ × ℕ × ℕ) (ij : ℕ × ℕ) : ℚ × ℕ × ℕ :=
  if getCell g ij.1 ij.2 ≠ NODATA ∧ getLabel ig ij.1 ij.2 = -1 ∧ getCell g ij.1 ij.2 < acc.1
  then (getCell g ij.1 ij.2, ij.1, ij.2)
  else acc

/-- The seed search (lines 936-950): minimum over all cells in scan order,
started at (BIGINT, 0, 0).  When no cell qualifies the result stays
(BIGINT, 0, 0). -/
def seedSearch (g : QGrid) (ig : IGrid) : ℚ × ℕ × ℕ :=
  (scanOrder g).foldl (seedScan g ig) (BIGINT, 0, 0)

/-- Seeding (lines 952-955): push the found cell with the found height,
label it 1 (ground), decrement the count. -/
def seedStep (g : QGrid) (s : FGState) : FGState :=
  let m := seedSearch g s.ig
  ⟨setLabel s.ig m.2.1 m.2.2 1, s.q ++ [(m.2.1, m.2.2, m.1)], s.count - 1,
   s.lab_log ++ [(m.2.1, m.2.2)], s.passes + 1⟩

/-- The four compass directions in the order the di/dj loops produce them
(lines 967-970). -/
def dirs : List (ℤ × ℤ) := [(-1, 0), (0, -1), (0, 1), (1, 0)]

/-- Processing one in-bounds neighbor (lines 976-1004): skip if visited or
NODATA; gentle upward slope copies curr_type, steep upward slope labels 0
(building), otherwise (negative slope not exceeding the threshold) skip. -/
def visitNeighbor (t : ℚ) (g : QGrid) (curr_h : ℚ) (curr_type : ℤ) (s : FGState)
    (ni nj : ℕ) : FGState :=
  if getLabel s.ig ni nj ≠ -1 ∨ getCell g ni nj = NODATA then s
  else
    let new_h := getCell g ni nj
    let slope := new_h - curr_h
    if slope ≤ t ∧ 0 ≤ slope then
      ⟨setLabel s.ig ni nj curr_type, s.q ++ [(ni, nj, new_h)], s.count - 1,
       s.lab_log ++ [(ni, nj)], s.passes⟩
    else if t < slope then
      ⟨setLabel s.ig ni nj 0, s.q ++ [(ni, nj, new_h)], s.count - 1,
       s.lab_log ++ [(ni, nj)], s.passes⟩
    else s

/-- One direction of the neighbor loop with its bounds test (lines 972-974):
the column bound is last_grid[0].size(). -/
def neighborStep (t : ℚ) (g : QGrid) (ci cj : ℕ) (curr_h : ℚ) (curr_type : ℤ)
    (s : FGState) (d : ℤ × ℤ) : FGState :=
  if 0 ≤ (ci : ℤ) + d.1 ∧ 0 ≤ (cj : ℤ) + d.2 ∧
     (ci : ℤ) + d.1 < (g.length : ℤ) ∧ (cj : ℤ) + d.2 < (numCols g : ℤ) then
    visitNeighbor t g curr_h curr_type s ((ci : ℤ) + d.1).toNat ((cj : ℤ) + d.2).toNat
  else s

/-- Processing one popped cell (lines 958-1008): curr_type is the C++ bool
conversion of is_ground at the cell (0 stays 0, anything else becomes 1),
then the four directions run in order. -/
def bfsStep (t : ℚ) (g : QGrid) (c : ℕ × ℕ × ℚ) (s : FGState) : FGState :=
  let curr_type : ℤ := if getLabel s.ig c.1 c.2.1 = 0 then 0 else 1
  dirs.foldl (neighborStep t g c.1 c.2.1 c.2.2 curr_type) s

/-- is_ground initialized to -1 everywhere (line 922), empty queue,
unclassified_count as counted by the source. -/
def initState (g : QGrid) : FGState :=
  ⟨List.replicate g.length (List.replicate (numCols g) (-1)), [], initCount g, [], 0⟩

/-- Fuel exceeding the total number of loop steps of any run (a decreasing
measure bounds them; see the termination lemma).  With it the fueled loop
is total on every input, matching the source, whose loops always end. -/
def fgFuel (g : QGrid) : ℕ := 6 * (g.length * numCols g) + 8

/-- The combined loop of find_ground (lines 935-1010): while the queue is
nonempty pop and expand (the inner while at 958); on an empty queue seed
again if unclassified_count > 0 and stop otherwise (the do-while test at
1010).  The entry point runs the first seeding before this loop, so the
do-while body executes at least once exactly as in the source. -/
def fgLoop (t : ℚ) (g : QGrid) : ℕ → FGState → Option FGState
  | 0, _ => none
  | fuel + 1, s =>
    match s.q with
    | [] => if 0 < s.count then fgLoop t g fuel (seedStep g s) else some s
    | c :: rest => fgLoop t g fuel (bfsStep t g c ⟨s.ig, rest, s.count, s.lab_log, s.passes⟩)

/-- A full run of find_ground, final state included (ghost fields too). -/
def find_ground_run (g : QGrid) (t : ℚ) : Option FGState :=
  fgLoop t g (fgFuel g) (seedStep g (initState g))

/-- find_ground (lines 917-1012): the returned is_ground grid. -/
def find_ground (g : QGrid) (t : ℚ) : Option IGrid :=
  (find_ground_run g t).map FGState.ig

/-- Well-formed rectangular grid with at least one row and one column, as
every grid built by gridify from a nonempty in-range point set is. -/
def GridWF (g : QGrid) : Prop :=
  g ≠ [] ∧ 0 < numCols g ∧ ∀ row ∈ g, row.length = numCols g

/-- The classification grid has the dimensions find_ground gives it. -/
def IgWF (g : QGrid) (ig : IGrid) : Prop :=
  ig.length = g.length ∧ ∀ row ∈ ig, row.length = numCols g

/-- Number of unclassified non-NODATA cells: what unclassified_count is
meant to track. -/
def uCount (g : QGrid) (ig : IGrid) : ℕ :=
  (((scanOrder g).filter
      (fun ij => getCell g ij.1 ij.2 ≠ NODATA ∧ getLabel ig ij.1 ij.2 = -1)).length)

/-- A measure that strictly decreases at every step of fgLoop; it bounds
the number of loop iterations of any run. -/
def fgMeasure (g : QGrid) (s : FGState) : ℕ :=
  3 * uCount g s.ig + s.q.length + 2 * s.count.toNat

/-- Every cell of the grid holds NODATA. -/
def AllNodata (g : QGrid) : Prop :=
  ∀ ij ∈ scanOrder g, getCell g ij.1 ij.2 = NODATA

/-- Some cell of the grid holds a non-NODATA value. -/
def SomeData (g : QGrid) : Prop :=
  ∃ ij ∈ scanOrder g, getCell g ij.1 ij.2 ≠ NODATA

/-- Every non-NODATA value of the grid is below BIGINT, so the strict
comparison of the seed search can accept it.  Physical elevation grids
satisfy this by a huge margin. -/
def SmallValues (g : QGrid) : Prop :=
  ∀ ij ∈ scanOrder g, getCell g ij.1 ij.2 ≠ NODATA → getCell g ij.1 ij.2 < BIGINT

/-- A flat grid: every cell holds the same value v. -/
def FlatGrid (g : QGrid) (v : ℚ) : Prop :=
  ∀ ij ∈ scanOrder g, getCell g ij.1 ij.2 = v

instance (g : QGrid) : Decidable (GridWF g) :=
  inferInstanceAs (Decidable (g ≠ [] ∧ 0 < numCols g ∧ ∀ row ∈ g, row.length = numCols g))

instance (g : QGrid) : Decidable (AllNodata g) :=
  inferInstanceAs (Decidable (∀ ij ∈ scanOrder g, getCell g ij.1 ij.2 = NODATA))

instance (g : QGrid) : Decidable (SomeData g) :=
  inferInstanceAs (Decidable (∃ ij ∈ scanOrder g, getCell g ij.1 ij.2 ≠ NODATA))

instance (g : QGrid) : Decidable (SmallValues g) :=
  inferInstanceAs (Decidable (∀ ij ∈ scanOrder g, getCell g ij.1 ij.2 ≠ NODATA → getCell g ij.1 ij.2 < BIGINT))

instance (g : QGrid) (v : ℚ) : Decidable (FlatGrid g v) :=
  inferInstanceAs (Decidable (∀ ij ∈ scanOrder g, getCell g ij.1 ij.2 = v))

/-- Every cell label is one of -1, 0, 1, as find_ground maintains. -/
def LabelRange (ig : IGrid) : Prop :=
  ∀ i j, getLabel ig i j = -1 ∨ getLabel ig i j = 0 ∨ getLabel ig i j = 1

/-- Pointwise relation between two classification grids: the unvisited
cells coincide, and every Ground cell of the first is Ground in the
second (so the only differences are Building cells of the first that are
Ground in the second). -/
def LabelLe (ig1 ig2 : IGrid) : Prop :=
  ∀ i j, (getLabel ig1 i j = -1 ↔ getLabel ig2 i j = -1) ∧
    (getLabel ig1 i j = 1 → getLabel ig2 i j = 1)

/-- Lockstep relation between the states of two find_ground runs over the
same grid: same queue, same count, well-formed grids, labels in range and
pointwise LabelLe. -/
def StateRel (g : QGrid) (s1 s2 : FGState) : Prop :=
  s1.q = s2.q ∧ s1.count = s2.count ∧ IgWF g s1.ig ∧ IgWF g s2.ig ∧
  LabelRange s1.ig ∧ LabelRange s2.ig ∧ LabelLe s1.ig s2.ig

/-- Four points whose bounding box is x in [0,8], y in [0,25/8].  With
density 1 the source computes num_cells = 4 and delta = sqrt(25/4) = 5/2
exactly in float arithmetic; rows = 2, cols = 4, and all four points bin in
range: (0,0), (1,3), (0,0), (0,0).  The third point has return_number 1 of
nb_of_returns 3, so it is not a last return. -/
def pts1 : List LidarPoint :=
  [⟨0, 0, 4, 1, 1, 0⟩, ⟨8, 25/8, 7, 1, 1, 0⟩, ⟨1, 1, 6, 3, 1, 0⟩, ⟨2, 1/2, 2, 2, 2, 0⟩]

/-- Two points at the same location: a bounding box of zero width and zero
height.  The source computes delta = sqrt(0*0/2) = 0. -/
def pts4 : List LidarPoint :=
  [⟨1, 1, 5, 1, 1, 0⟩, ⟨1, 1, 7, 1, 1, 0⟩]

/-- Four points at the corners of the square [0,2] x [0,2].  With density 1
the source computes num_cells = 4 and delta = sqrt(2*2/4) = 1 exactly in
float arithmetic. -/
def pts9 : List LidarPoint :=
  [⟨0, 0, 1, 1, 1, 0⟩, ⟨2, 0, 1, 1, 1, 0⟩, ⟨0, 2, 1, 1, 1, 0⟩, ⟨2, 2, 1, 1, 1, 0⟩]

end LidarView

namespace LidarView

/-- C1 (code evidence at the failing input): the last-return test of
gridify is the tautology return_number == return_number (line 266), so the
z = 6 of the third point of pts1 (return 1 of 3, not a last return) is
accumulated into the last-return sample list of cell (0,0) and enters the
DepthGrid average there: the cell averages to (4+6+2)/3 = 4 and not to the
mean 3 of its two genuine last returns (z = 4 and z = 2). -/
theorem c1_tautology_fills_last_grid :
    computeBBox pts1 = some ⟨0, 8, 0, 25/8, 2, 7⟩ ∧
    (5/2 : ℚ) * (5/2) * 4 = (25/8 - 0) * (8 - 0) ∧
    getSamples (binPoints pts1 0 0 (5/2) 2 4).2 0 0 = [4, 6, 2] ∧
    getCell (gridify pts1 0 8 0 (25/8) 7 (5/2)).avg_depth 0 0 = 4 ∧
    ((4 : ℚ) + 2) / 2 ≠ 4 := by
  exact ⟨by decide, by decide, by decide, by decide, by decide⟩

/-- C2 (code evidence at the failing input): for pts1 the grid is 2 rows by
4 columns and the second point bins into cell (1,3) with z = 7, yet the
averaging double loop bounds both indices by the number of rows
(lines 279-280), so cell (1,3) is never averaged and stays NODATA in the
ElevationGrid although it received a sample. -/
theorem c2_average_misses_columns :
    (gridRows (25/8 - 0) (5/2)).toNat = 2 ∧ (gridCols (8 - 0) (5/2)).toNat = 4 ∧
    getSamples (binPoints pts1 0 0 (5/2) 2 4).1 1 3 = [7] ∧
    getCell (gridify pts1 0 8 0 (25/8) 7 (5/2)).avg_height 1 3 = NODATA := by
  exact ⟨by decide, by decide, by decide, by decide⟩

/-- C4 (code evidence at the failing input): gridify has no emptiness or
degeneracy check.  On pts4, two points at one location (bounding box of
zero width and zero height), the source divides by the zero delta and
builds zero-row grids; the embedded gridify returns the ordinary value
with empty grids and no error is reported. -/
theorem c4_no_error_on_degenerate :
    computeBBox pts4 = some ⟨1, 1, 1, 1, 5, 7⟩ ∧
    gridify pts4 1 1 1 1 7 0 = ⟨[], [], 7⟩ := by
  exact ⟨by decide, by decide⟩

/-- C9 (code evidence at the failing input): for pts9 (corners of the
square with side 2, delta = 1) the corner point (2,2) gets row index
floor(2/1) = 2 and column index 2, while rows = cols = ceil(2/1) = 2: both
indices equal the grid size instead of being below it, so the unchecked
write first_returns[2][2] of line 263 is out of bounds. -/
theorem c9_index_out_of_bounds :
    computeBBox pts9 = some ⟨0, 2, 0, 2, 1, 1⟩ ∧
    (1 : ℚ) * 1 * 4 = (2 - 0) * (2 - 0) ∧
    rowIndex 0 1 2 = gridRows (2 - 0) 1 ∧
    colIndex 0 1 2 = gridCols (2 - 0) 1 ∧
    ¬ rowIndex 0 1 2 < gridRows (2 - 0) 1 := by
  exact ⟨by decide, by decide, by decide, by decide, by decide⟩

/-- C3 (counterexample): on the DepthGrid [[0, 268435488, 268435456]]
raising the threshold from -40 to -1 changes cell (0,2) from Building to
Unclassified, not from Building to Ground: under t = -40 the cell is
reached over the slope -32 and labeled building, under t = -1 that branch
is pruned and the later seed search skips the cell because its value is
not below BIGINT, so the default seed relabels (0,0) and the loop ends
with (0,2) unvisited.  All three values are exactly representable floats
and lie on the same side of the float BIGINT as of the exact one. -/
theorem c3_counter_threshold_increase :
    (-40 : ℚ) ≤ -1 ∧
    find_ground [[0, 268435488, 268435456]] (-40) = some [[1, 0, 0]] ∧
    find_ground [[0, 268435488, 268435456]] (-1) = some [[1, 0, -1]] := by
  exact ⟨by decide, by decide, by decide⟩

/-- C5 (counterexample): on a DepthGrid consisting of one NODATA cell the
do-while body runs once, the seed search finds no candidate and the
default seed (0,0) is labeled Ground although it is NODATA. -/
theorem c5_counter_all_nodata :
    getCell [[NODATA]] 0 0 = NODATA ∧ find_ground [[NODATA]] 0 = some [[1]] := by
  exact ⟨by decide, by decide⟩

/-- C6 (counterexample): with threshold -5, expanding the popped building
cell (0,1) of height 10 over the grid [[8, 10, 9]] meets the unvisited
non-NODATA neighbor (0,2) with slope 9 - 10 = -1 < 0, and the neighbor is
labeled building and enqueued (the slope > threshold branch fires first),
while the claim's negative-slope case says it is neither labeled nor
enqueued.  The state below is the one the real run reaches, as the full
run result confirms. -/
theorem c6_counter_negative_slope_enqueued :
    getCell [[8, 10, 9]] 0 2 - 10 < 0 ∧
    (bfsStep (-5) [[8, 10, 9]] (0, 1, 10) ⟨[[1, 0, -1]], [], 1, [(0, 0), (0, 1)], 1⟩).ig
      = [[1, 0, 0]] ∧
    (bfsStep (-5) [[8, 10, 9]] (0, 1, 10) ⟨[[1, 0, -1]], [], 1, [(0, 0), (0, 1)], 1⟩).q
      = [(0, 2, 9)] ∧
    find_ground [[8, 10, 9]] (-5) = some [[1, 0, 0]] := by
  exact ⟨by decide, by decide, by decide, by decide⟩

/-- C7 (counterexample): a flat 1 by 2 grid with a negative threshold is
not labeled all Ground: the slope 0 between the seed and its neighbor is
not between 0 and the threshold, so the slope > threshold branch labels
the neighbor Building. -/
theorem c7_counter_negative_threshold :
    find_ground [[0, 0]] (-1) = some [[1, 0]] := by
  decide

/-- C8 (counterexample): on [[268435456, NODATA, 268435456]] the non-NODATA
cell (0,0) is labeled twice: both values fail the strict comparison with
BIGINT, so the first and the second do-while iteration both fall back to
the default seed (0,0); the label write log of the run is
[(0,0), (0,0)]. -/
theorem c8_counter_double_label :
    getCell [[268435456, NODATA, 268435456]] 0 0 ≠ NODATA ∧
    (find_ground_run [[268435456, NODATA, 268435456]] (1/2)).map FGState.lab_log
      = some [(0, 0), (0, 0)] ∧
    ¬ ([((0 : ℕ), (0 : ℕ)), (0, 0)] : List (ℕ × ℕ)).Nodup := by
  exact ⟨by decide, by decide, by decide⟩

end LidarView

namespace LidarView

/-! Basic lemmas about cell reads and writes. -/

theorem getD_set_self {α} (l : List α) (n : ℕ) (v d : α) (h : n < l.length) :
    (l.set n v).getD n d = v := by
  induction l generalizing n with
  | nil => simp at h
  | cons a t ih =>
    cases n with
    | zero => rfl
    | succ m => simpa using ih m (by simpa using h)

theorem getD_set_ne {α} (l : List α) (n m : ℕ) (v d : α) (h : m ≠ n) :
    (l.set n v).getD m d = l.getD m d := by
  induction l generalizing n m with
  | nil => simp
  | cons a t ih =>
    cases n with
    | zero => cases m with
      | zero => exact absurd rfl h
      | succ k => rfl
    | succ n1 => cases m with
      | zero => rfl
      | succ k => simpa using ih n1 k (by omega)

theorem length_setLabel (ig : IGrid) (i j : ℕ) (v : ℤ) :
    (setLabel ig i j v).length = ig.length := by
  simp [setLabel]

theorem getLabel_setLabel_self (ig : IGrid) (i j : ℕ) (v : ℤ)
    (hi : i < ig.length) (hj : j < (ig.getD i []).length) :
    getLabel (setLabel ig i j v) i j = v := by
  unfold getLabel setLabel
  rw [getD_set_self _ _ _ _ hi, getD_set_self _ _ _ _ hj]

theorem getLabel_setLabel_ne (ig : IGrid) (i j i' j' : ℕ) (v : ℤ)
    (h : ¬(i' = i ∧ j' = j)) :
    getLabel (setLabel ig i j v) i' j' = getLabel ig i' j' := by
  unfold getLabel setLabel
  by_cases hi : i' = i
  · subst hi
    have hj : j' ≠ j := fun hj => h ⟨rfl, hj⟩
    by_cases hlen : i' < ig.length
    · rw [getD_set_self _ _ _ _ hlen, getD_set_ne _ _ _ _ _ hj]
    · rw [List.set_eq_of_length_le (by omega)]
  · rw [getD_set_ne _ _ _ _ _ hi]

theorem getLabel_setLabel_or (ig : IGrid) (i j i' j' : ℕ) (v : ℤ) :
    getLabel (setLabel ig i j v) i' j' = v ∨
    getLabel (setLabel ig i j v) i' j' = getLabel ig i' j' := by
  by_cases h : i' = i ∧ j' = j
  · obtain ⟨rfl, rfl⟩ := h
    by_cases hi : i' < ig.length
    · by_cases hj : j' < (ig.getD i' []).length
      · exact Or.inl (getLabel_setLabel_self ig i' j' v hi hj)
      · right
        unfold getLabel setLabel
        rw [getD_set_self _ _ _ _ hi, List.set_eq_of_length_le (by omega)]
    · right
      unfold getLabel setLabel
      rw [List.set_eq_of_length_le (by omega)]
  · exact Or.inr (getLabel_setLabel_ne ig i j i' j' v h)

theorem igWF_setLabel (g : QGrid) (ig : IGrid) (i j : ℕ) (v : ℤ)
    (h : IgWF g ig) : IgWF g (setLabel ig i j v) := by
  obtain ⟨h1, h2⟩ := h
  refine ⟨by simpa [setLabel] using h1, ?_⟩
  intro row hrow
  unfold setLabel at hrow
  by_cases hi : i < ig.length
  · rcases List.mem_or_eq_of_mem_set hrow with h3 | h3
    · exact h2 row h3
    · subst h3
      rw [List.length_set]
      have hmem : ig.getD i [] ∈ ig := by
        rw [List.getD_eq_getElem?_getD, List.getElem?_eq_getElem hi]
        exact List.getElem_mem hi
      exact h2 _ hmem
  · rw [List.set_eq_of_length_le (by omega)] at hrow
    exact h2 row hrow

/-! Lemmas about scanOrder and uCount. -/

theorem mem_scanOrder (g : QGrid) (i j : ℕ) :
    (i, j) ∈ scanOrder g ↔ i < g.length ∧ j < (g.getD i []).length := by
  constructor
  · intro h
    simp only [scanOrder, List.mem_bind, List.mem_map, List.mem_range] at h
    obtain ⟨a, ha, b, hb, heq⟩ := h
    have h1 : a = i := congrArg Prod.fst heq
    have h2 : b = j := congrArg Prod.snd heq
    subst h1; subst h2
    exact ⟨ha, hb⟩
  · intro ⟨h1, h2⟩
    simp only [scanOrder, List.mem_bind, List.mem_map, List.mem_range]
    exact ⟨i, h1, j, h2, rfl⟩

theorem rowLen_of_WF (g : QGrid) (hw : ∀ row ∈ g, row.length = numCols g)
    (i : ℕ) (hi : i < g.length) : (g.getD i []).length = numCols g := by
  have hmem : g.getD i [] ∈ g := by
    rw [List.getD_eq_getElem?_getD, List.getElem?_eq_getElem hi]
    exact List.getElem_mem hi
  exact hw _ hmem

theorem scanOrder_nodup (g : QGrid) : (scanOrder g).Nodup := by
  unfold scanOrder
  rw [List.nodup_bind]
  constructor
  · intro x _
    exact List.Nodup.map (fun a b h => by simpa using h) (List.nodup_range _)
  · refine (List.pairwise_lt_range _).imp ?_
    intro a b hab x hxa hxb
    simp only [List.mem_map, List.mem_range] at hxa hxb
    obtain ⟨j1, _, rfl⟩ := hxa
    obtain ⟨j2, _, heq⟩ := hxb
    have : b = a := congrArg Prod.fst heq
    omega

theorem scanOrder_length (g : QGrid) (hw : ∀ row ∈ g, row.length = numCols g) :
    (scanOrder g).length = g.length * numCols g := by
  unfold scanOrder
  rw [List.length_bind]
  have h1 : ∀ i ∈ List.range g.length,
      (List.length ∘ fun i => (List.range ((g.getD i []).length)).map (fun j => (i, j))) i
        = (fun _ => numCols g) i := by
    intro i hi
    simp only [Function.comp_apply, List.length_map, List.length_range]
    exact rowLen_of_WF g hw i (List.mem_range.mp hi)
  rw [List.map_congr_left h1, List.map_const', List.length_range, List.sum_replicate, smul_eq_mul]

theorem filter_length_flip {α} (p p' : α → Bool) :
    ∀ (l : List α), l.Nodup → ∀ x ∈ l, p x = true → p' x = false →
    (∀ y ∈ l, y ≠ x → p' y = p y) →
    (l.filter p').length + 1 = (l.filter p).length := by
  intro l
  induction l with
  | nil => intro _ x hx; simp at hx
  | cons a t ih =>
    intro hnd x hx hpx hpx' hagree
    rcases List.mem_cons.mp hx with rfl | hxt
    · have hxt : x ∉ t := (List.nodup_cons.mp hnd).1
      have hft : t.filter p' = t.filter p := by
        apply List.filter_congr
        intro y hy
        exact hagree y (List.mem_cons_of_mem _ hy) (fun h => hxt (h ▸ hy))
      rw [List.filter_cons, List.filter_cons, hft, hpx, hpx']
      simp
    · have hpa : p' a = p a := by
        apply hagree a (List.mem_cons_self a t)
        intro h; subst h
        exact (List.nodup_cons.mp hnd).1 hxt
      rw [List.filter_cons, List.filter_cons, hpa]
      have hrec := ih (List.nodup_cons.mp hnd).2 x hxt hpx hpx'
        (fun y hy hne => hagree y (List.mem_cons_of_mem _ hy) hne)
      by_cases hp : p a = true
      · simp only [hp, if_true, List.length_cons]
        omega
      · simp only [hp, if_false]
        exact hrec

theorem uCount_label (g : QGrid) (ig : IGrid) (i j : ℕ) (v : ℤ)
    (hmem : (i, j) ∈ scanOrder g) (hnod : getCell g i j ≠ NODATA)
    (hlab : getLabel ig i j = -1) (hv : v ≠ -1)
    (hi : i < ig.length) (hj : j < (ig.getD i []).length) :
    uCount g (setLabel ig i j v) + 1 = uCount g ig := by
  unfold uCount
  apply filter_length_flip _ _ (scanOrder g) (scanOrder_nodup g) (i, j) hmem
  · simp [hnod, hlab]
  · simp [getLabel_setLabel_self ig i j v hi hj, hv, hnod]
  · intro y hy hne
    have hne2 : ¬(y.1 = i ∧ y.2 = j) := by
      intro ⟨h1, h2⟩
      exact hne (Prod.ext h1 h2)
    simp [getLabel_setLabel_ne ig i j y.1 y.2 v hne2]

theorem uCount_setLabel_le (g : QGrid) (ig : IGrid) (i j : ℕ) (v : ℤ) (hv : v ≠ -1) :
    uCount g (setLabel ig i j v) ≤ uCount g ig := by
  unfold uCount
  simp only [← List.countP_eq_length_filter]
  apply List.countP_mono_left
  intro ij _ hp
  simp only [decide_eq_true_eq] at hp ⊢
  rcases getLabel_setLabel_or ig i j ij.1 ij.2 v with h | h
  · exact absurd (h ▸ hp.2) hv
  · exact ⟨hp.1, h ▸ hp.2⟩

/-! Lemmas about the seed search. -/

theorem getD_mem_of_lt {α} (l : List α) (d : α) (i : ℕ) (hi : i < l.length) :
    l.getD i d ∈ l := by
  rw [List.getD_eq_getElem?_getD, List.getElem?_eq_getElem hi]
  exact List.getElem_mem hi

theorem rowLen_of_IgWF (g : QGrid) (ig : IGrid) (h : IgWF g ig) (i : ℕ)
    (hi : i < ig.length) : (ig.getD i []).length = numCols g :=
  h.2 _ (getD_mem_of_lt ig [] i hi)

theorem seedScan_congr (g : QGrid) (ig1 ig2 : IGrid)
    (h : ∀ i j, getLabel ig1 i j = -1 ↔ getLabel ig2 i j = -1) :
    seedScan g ig1 = seedScan g ig2 := by
  funext acc ij
  unfold seedScan
  refine if_congr ?_ rfl rfl
  constructor
  · intro ⟨a, b, c⟩; exact ⟨a, (h _ _).mp b, c⟩
  · intro ⟨a, b, c⟩; exact ⟨a, (h _ _).mpr b, c⟩

theorem seedSearch_congr (g : QGrid) (ig1 ig2 : IGrid)
    (h : ∀ i j, getLabel ig1 i j = -1 ↔ getLabel ig2 i j = -1) :
    seedSearch g ig1 = seedSearch g ig2 := by
  unfold seedSearch
  rw [seedScan_congr g ig1 ig2 h]

theorem seedSearch_default (g : QGrid) (ig : IGrid)
    (h : ∀ ij ∈ scanOrder g,
      ¬(getCell g ij.1 ij.2 ≠ NODATA ∧ getLabel ig ij.1 ij.2 = -1 ∧
        getCell g ij.1 ij.2 < BIGINT)) :
    seedSearch g ig = (BIGINT, 0, 0) := by
  unfold seedSearch
  have main : ∀ l : List (ℕ × ℕ), (∀ ij ∈ l, ¬(getCell g ij.1 ij.2 ≠ NODATA ∧
      getLabel ig ij.1 ij.2 = -1 ∧ getCell g ij.1 ij.2 < BIGINT)) →
      l.foldl (seedScan g ig) (BIGINT, 0, 0) = (BIGINT, 0, 0) := by
    intro l
    induction l with
    | nil => intro _; rfl
    | cons a t ih =>
      intro hl
      rw [List.foldl_cons]
      have ha : seedScan g ig (BIGINT, 0, 0) a = (BIGINT, 0, 0) := by
        unfold seedScan
        exact if_neg (hl a (List.mem_cons_self a t))
      rw [ha]
      exact ih (fun ij hij => hl ij (List.mem_cons_of_mem _ hij))
  exact main _ h

theorem seedScan_apply (g : QGrid) (ig : IGrid) (acc : ℚ × ℕ × ℕ) (ij : ℕ × ℕ) :
    seedScan g ig acc ij =
      if getCell g ij.1 ij.2 ≠ NODATA ∧ getLabel ig ij.1 ij.2 = -1 ∧
         getCell g ij.1 ij.2 < acc.1
      then (getCell g ij.1 ij.2, ij.1, ij.2) else acc := rfl

theorem seedSearch_finds (g : QGrid) (ig : IGrid) (c : ℕ × ℕ) (hc : c ∈ scanOrder g)
    (h1 : getCell g c.1 c.2 ≠ NODATA) (h2 : getLabel ig c.1 c.2 = -1)
    (h3 : getCell g c.1 c.2 < BIGINT) :
    (seedSearch g ig).2 ∈ scanOrder g ∧
    getCell g (seedSearch g ig).2.1 (seedSearch g ig).2.2 ≠ NODATA ∧
    getLabel ig (seedSearch g ig).2.1 (seedSearch g ig).2.2 = -1 ∧
    getCell g (seedSearch g ig).2.1 (seedSearch g ig).2.2 = (seedSearch g ig).1 := by
  classical
  let Good : ℚ × ℕ × ℕ → Prop := fun m =>
    m.2 ∈ scanOrder g ∧ getCell g m.2.1 m.2.2 ≠ NODATA ∧
    getLabel ig m.2.1 m.2.2 = -1 ∧ getCell g m.2.1 m.2.2 = m.1
  have step_pres : ∀ acc ij, ij ∈ scanOrder g → (acc = (BIGINT, 0, 0) ∨ Good acc) →
      (seedScan g ig acc ij = acc ∨ Good (seedScan g ig acc ij)) := by
    intro acc ij hij _
    unfold seedScan
    by_cases hcond : getCell g ij.1 ij.2 ≠ NODATA ∧ getLabel ig ij.1 ij.2 = -1 ∧
        getCell g ij.1 ij.2 < acc.1
    · rw [if_pos hcond]
      exact Or.inr ⟨hij, hcond.1, hcond.2.1, rfl⟩
    · rw [if_neg hcond]; exact Or.inl rfl
  have fold_pres : ∀ (l : List (ℕ × ℕ)) (acc), (∀ ij ∈ l, ij ∈ scanOrder g) →
      (acc = (BIGINT, 0, 0) ∨ Good acc) →
      (l.foldl (seedScan g ig) acc = (BIGINT, 0, 0) ∨ Good (l.foldl (seedScan g ig) acc)) := by
    intro l
    induction l with
    | nil => intro acc _ h; simpa using h
    | cons a t ih =>
      intro acc hsub h
      rw [List.foldl_cons]
      rcases step_pres acc a (hsub a (List.mem_cons_self a t)) h with he | hg
      · rw [he]
        exact ih acc (fun ij hij => hsub ij (List.mem_cons_of_mem _ hij)) h
      · exact ih _ (fun ij hij => hsub ij (List.mem_cons_of_mem _ hij)) (Or.inr hg)
  have fold_good : ∀ (l : List (ℕ × ℕ)) (acc), (∀ ij ∈ l, ij ∈ scanOrder g) →
      Good acc → Good (l.foldl (seedScan g ig) acc) := by
    intro l
    induction l with
    | nil => intro acc _ h; exact h
    | cons a t ih =>
      intro acc hsub h
      rw [List.foldl_cons]
      rcases step_pres acc a (hsub a (List.mem_cons_self a t)) (Or.inr h) with he | hg
      · rw [he]; exact ih acc (fun ij hij => hsub ij (List.mem_cons_of_mem _ hij)) h
      · exact ih _ (fun ij hij => hsub ij (List.mem_cons_of_mem _ hij)) hg
  obtain ⟨l1, l2, hsplit⟩ := List.append_of_mem hc
  have hgood : Good (seedSearch g ig) := by
    unfold seedSearch
    rw [hsplit, List.foldl_append, List.foldl_cons]
    have hsub1 : ∀ ij ∈ l1, ij ∈ scanOrder g := by
      intro ij hij; rw [hsplit]; exact List.mem_append_left _ hij
    have hsub2 : ∀ ij ∈ l2, ij ∈ scanOrder g := by
      intro ij hij; rw [hsplit]
      exact List.mem_append_right _ (List.mem_cons_of_mem _ hij)
    rcases fold_pres l1 (BIGINT, 0, 0) hsub1 (Or.inl rfl) with he | hg
    · -- accumulator still the default when c is scanned: the condition fires
      rw [he]
      apply fold_good l2 _ hsub2
      rw [seedScan_apply, if_pos ⟨h1, h2, h3⟩]
      exact ⟨hc, h1, h2, rfl⟩
    · -- accumulator already a good candidate
      apply fold_good l2 _ hsub2
      by_cases hcond : getCell g c.1 c.2 ≠ NODATA ∧ getLabel ig c.1 c.2 = -1 ∧
          getCell g c.1 c.2 < (l1.foldl (seedScan g ig) (BIGINT, 0, 0)).1
      · rw [seedScan_apply, if_pos hcond]; exact ⟨hc, h1, h2, rfl⟩
      · rw [seedScan_apply, if_neg hcond]; exact hg
  exact ⟨hgood.1, hgood.2.1, hgood.2.2.1, hgood.2.2.2⟩

/-! Step characterizations, well-formedness preservation and the
decreasing measure of the loop. -/

theorem visitNeighbor_spec (t : ℚ) (g : QGrid) (h : ℚ) (ct : ℤ) (s : FGState)
    (ni nj : ℕ) :
    visitNeighbor t g h ct s ni nj = s ∨
    (getLabel s.ig ni nj = -1 ∧ getCell g ni nj ≠ NODATA ∧
     ∃ v : ℤ, (v = ct ∨ v = 0) ∧
       visitNeighbor t g h ct s ni nj =
         ⟨setLabel s.ig ni nj v, s.q ++ [(ni, nj, getCell g ni nj)], s.count - 1,
          s.lab_log ++ [(ni, nj)], s.passes⟩) := by
  unfold visitNeighbor
  by_cases h1 : getLabel s.ig ni nj ≠ -1 ∨ getCell g ni nj = NODATA
  · rw [if_pos h1]; exact Or.inl rfl
  · rw [if_neg h1]
    push_neg at h1
    by_cases h2 : getCell g ni nj - h ≤ t ∧ 0 ≤ getCell g ni nj - h
    · rw [if_pos h2]; exact Or.inr ⟨h1.1, h1.2, ct, Or.inl rfl, rfl⟩
    · rw [if_neg h2]
      by_cases h3 : t < getCell g ni nj - h
      · rw [if_pos h3]; exact Or.inr ⟨h1.1, h1.2, 0, Or.inr rfl, rfl⟩
      · rw [if_neg h3]; exact Or.inl rfl

theorem neighborStep_spec (t : ℚ) (g : QGrid) (ci cj : ℕ) (h : ℚ) (ct : ℤ)
    (s : FGState) (d : ℤ × ℤ) :
    neighborStep t g ci cj h ct s d = s ∨
    ∃ ni nj : ℕ, ni < g.length ∧ nj < numCols g ∧
      neighborStep t g ci cj h ct s d = visitNeighbor t g h ct s ni nj := by
  unfold neighborStep
  by_cases hb : 0 ≤ (ci : ℤ) + d.1 ∧ 0 ≤ (cj : ℤ) + d.2 ∧
      (ci : ℤ) + d.1 < (g.length : ℤ) ∧ (cj : ℤ) + d.2 < (numCols g : ℤ)
  · rw [if_pos hb]
    exact Or.inr ⟨((ci : ℤ) + d.1).toNat, ((cj : ℤ) + d.2).toNat,
      by omega, by omega, rfl⟩
  · rw [if_neg hb]; exact Or.inl rfl

theorem foldl_preserve {α β : Type _} (f : β → α → β) (P : β → Prop) :
    ∀ (l : List α), (∀ b a, a ∈ l → P b → P (f b a)) → ∀ b, P b → P (l.foldl f b) := by
  intro l
  induction l with
  | nil => intro _ b hb; exact hb
  | cons a t ih =>
    intro hstep b hb
    rw [List.foldl_cons]
    exact ih (fun b1 a1 ha1 hb1 => hstep b1 a1 (List.mem_cons_of_mem _ ha1) hb1) _
      (hstep b a (List.mem_cons_self a t) hb)

theorem visitNeighbor_wf_measure (t : ℚ) (g : QGrid) (h : ℚ) (ct : ℤ) (s : FGState)
    (ni nj : ℕ) (hw : GridWF g) (hig : IgWF g s.ig) (hct : ct ≠ -1)
    (hni : ni < g.length) (hnj : nj < numCols g) :
    IgWF g (visitNeighbor t g h ct s ni nj).ig ∧
    fgMeasure g (visitNeighbor t g h ct s ni nj) ≤ fgMeasure g s := by
  rcases visitNeighbor_spec t g h ct s ni nj with heq | ⟨hlab, hnod, v, hv, heq⟩
  · rw [heq]; exact ⟨hig, le_refl _⟩
  · rw [heq]
    have hvne : v ≠ -1 := by
      rcases hv with rfl | rfl
      · exact hct
      · decide
    have hmem : (ni, nj) ∈ scanOrder g := by
      rw [mem_scanOrder]
      exact ⟨hni, by rw [rowLen_of_WF g hw.2.2 ni hni]; exact hnj⟩
    have hu := uCount_label g s.ig ni nj v hmem hnod hlab hvne
      (by rw [hig.1]; exact hni)
      (by rw [rowLen_of_IgWF g s.ig hig ni (by rw [hig.1]; exact hni)]; exact hnj)
    refine ⟨igWF_setLabel g s.ig ni nj v hig, ?_⟩
    unfold fgMeasure
    simp only [List.length_append, List.length_cons, List.length_nil]
    have h2 : (s.count - 1).toNat ≤ s.count.toNat := by omega
    omega

theorem bfsStep_wf_measure (t : ℚ) (g : QGrid) (c : ℕ × ℕ × ℚ) (s : FGState)
    (hw : GridWF g) (hig : IgWF g s.ig) :
    IgWF g (bfsStep t g c s).ig ∧ fgMeasure g (bfsStep t g c s) ≤ fgMeasure g s := by
  unfold bfsStep
  have hP := foldl_preserve
    (neighborStep t g c.1 c.2.1 c.2.2 (if getLabel s.ig c.1 c.2.1 = 0 then 0 else 1))
    (fun s1 => IgWF g s1.ig ∧ fgMeasure g s1 ≤ fgMeasure g s) dirs ?hstep s ⟨hig, le_refl _⟩
  · exact ⟨hP.1, hP.2⟩
  case hstep =>
    intro s1 d _ hs1
    have hct : (if getLabel s.ig c.1 c.2.1 = 0 then (0 : ℤ) else 1) ≠ -1 := by
      split <;> decide
    rcases neighborStep_spec t g c.1 c.2.1 c.2.2 _ s1 d with heq | ⟨ni, nj, hni, hnj, heq⟩
    · rw [heq]; exact hs1
    · rw [heq]
      have := visitNeighbor_wf_measure t g c.2.2 _ s1 ni nj hw hs1.1 hct hni hnj
      exact ⟨this.1, le_trans this.2 hs1.2⟩

theorem seedStep_wf_measure (g : QGrid) (s : FGState) (hc : 0 < s.count)
    (hig : IgWF g s.ig) :
    IgWF g (seedStep g s).ig ∧ fgMeasure g (seedStep g s) < fgMeasure g s := by
  unfold seedStep
  refine ⟨igWF_setLabel g s.ig _ _ 1 hig, ?_⟩
  unfold fgMeasure
  simp only [List.length_append, List.length_cons, List.length_nil]
  have h1 : uCount g (setLabel s.ig (seedSearch g s.ig).2.1 (seedSearch g s.ig).2.2 1)
      ≤ uCount g s.ig := uCount_setLabel_le g s.ig _ _ 1 (by decide)
  have h2 : (s.count - 1).toNat + 1 = s.count.toNat := by omega
  omega

theorem fgLoop_succ (t : ℚ) (g : QGrid) (n : ℕ) (s : FGState) :
    fgLoop t g (n + 1) s =
      match s.q with
      | [] => if 0 < s.count then fgLoop t g n (seedStep g s) else some s
      | c :: rest => fgLoop t g n (bfsStep t g c ⟨s.ig, rest, s.count, s.lab_log, s.passes⟩) := rfl

theorem fgLoop_run (t : ℚ) (g : QGrid) (hw : GridWF g) (P : FGState → Prop)
    (hbfs : ∀ (c : ℕ × ℕ × ℚ) (s : FGState), IgWF g s.ig →
      P ⟨s.ig, c :: s.q, s.count, s.lab_log, s.passes⟩ → P (bfsStep t g c s))
    (hseed : ∀ s : FGState, IgWF g s.ig → s.q = [] → 0 < s.count → P s → P (seedStep g s)) :
    ∀ (fuel : ℕ) (s : FGState), IgWF g s.ig → P s → fgMeasure g s < fuel →
      ∃ s1, fgLoop t g fuel s = some s1 ∧ P s1 ∧ IgWF g s1.ig ∧ s1.q = [] ∧ s1.count ≤ 0 := by
  intro fuel
  induction fuel with
  | zero => intro s _ _ hm; omega
  | succ n ih =>
    intro s hig hP hm
    rw [fgLoop_succ]
    cases hq : s.q with
    | nil =>
      by_cases hc : 0 < s.count
      · rw [if_pos hc]
        have hmono := seedStep_wf_measure g s hc hig
        exact ih (seedStep g s) hmono.1 (hseed s hig hq hc hP) (by omega)
      · rw [if_neg hc]
        exact ⟨s, rfl, hP, hig, hq, by omega⟩
    | cons c rest =>
      have hsplit : s = ⟨s.ig, c :: rest, s.count, s.lab_log, s.passes⟩ := by
        cases s; simp_all
      set s2 : FGState := ⟨s.ig, rest, s.count, s.lab_log, s.passes⟩ with hs2
      have hig2 : IgWF g s2.ig := hig
      have hP2 : P (bfsStep t g c s2) := by
        apply hbfs c s2 hig2
        rw [hs2]
        rw [hsplit] at hP
        exact hP
      have hm2 : fgMeasure g s2 < fgMeasure g s := by
        rw [hsplit]
        unfold fgMeasure
        simp [hs2]
      have hmono := bfsStep_wf_measure t g c s2 hw hig2
      exact ih (bfsStep t g c s2) hmono.1 hP2 (by omega)

/-! The initial state, and the run on an all-NODATA grid. -/

theorem getD_replicate_eq {α} (n : ℕ) (a d : α) (i : ℕ) :
    (List.replicate n a).getD i d = if i < n then a else d := by
  rw [List.getD_eq_getElem?_getD, List.getElem?_replicate]
  by_cases h : i < n
  · rw [if_pos h, if_pos h]; rfl
  · rw [if_neg h, if_neg h]; rfl

theorem getLabel_initState (g : QGrid) (i j : ℕ) : getLabel (initState g).ig i j = -1 := by
  unfold getLabel
  rw [show (initState g).ig = List.replicate g.length (List.replicate (numCols g) (-1 : ℤ))
    from rfl]
  rw [getD_replicate_eq]
  by_cases hi : i < g.length
  · rw [if_pos hi, getD_replicate_eq]
    by_cases hj : j < numCols g
    · rw [if_pos hj]
    · rw [if_neg hj]
  · rw [if_neg hi]
    rfl

theorem igWF_initState (g : QGrid) : IgWF g (initState g).ig := by
  unfold initState IgWF
  refine ⟨List.length_replicate _ _, ?_⟩
  intro row hrow
  rw [List.eq_of_mem_replicate hrow]
  exact List.length_replicate _ _

theorem length_filter_split {α} (p : α → Bool) (l : List α) :
    (l.filter p).length + (l.filter (fun a => !(p a))).length = l.length := by
  induction l with
  | nil => rfl
  | cons a t ih =>
    rw [List.filter_cons, List.filter_cons]
    by_cases hp : p a = true
    · rw [if_pos hp, if_neg (by simp [hp])]
      simp only [List.length_cons]
      omega
    · rw [if_neg hp, if_pos (by simpa using hp)]
      simp only [List.length_cons]
      omega

theorem initCount_eq_uCount (g : QGrid) (hw : GridWF g) :
    initCount g = (uCount g (initState g).ig : ℤ) := by
  unfold initCount uCount
  have hcongr : (scanOrder g).filter
      (fun ij => decide (getCell g ij.1 ij.2 ≠ NODATA ∧ getLabel (initState g).ig ij.1 ij.2 = -1)) =
      (scanOrder g).filter (fun ij => !(decide (getCell g ij.1 ij.2 = NODATA))) := by
    apply List.filter_congr
    intro ij _
    rw [getLabel_initState]
    by_cases hn : getCell g ij.1 ij.2 = NODATA <;> simp [hn]
  rw [hcongr]
  have hsplit := length_filter_split (fun ij => decide (getCell g ij.1 ij.2 = NODATA)) (scanOrder g)
  have hlen := scanOrder_length g hw.2.2
  omega

theorem initCount_le (g : QGrid) : initCount g ≤ ((g.length * numCols g : ℕ) : ℤ) := by
  unfold initCount
  omega

theorem entry_measure (g : QGrid) (hw : GridWF g) :
    fgMeasure g (seedStep g (initState g)) < fgFuel g := by
  unfold fgMeasure fgFuel seedStep
  simp only [List.length_append, List.length_cons, List.length_nil]
  rw [show (initState g).q.length = 0 from rfl, show (initState g).count = initCount g from rfl]
  have h1 : uCount g (setLabel (initState g).ig (seedSearch g (initState g).ig).2.1
      (seedSearch g (initState g).ig).2.2 1) ≤ uCount g (initState g).ig :=
    uCount_setLabel_le g _ _ _ 1 (by decide)
  have h2 : uCount g (initState g).ig ≤ (scanOrder g).length := List.length_filter_le _ _
  have h3 := scanOrder_length g hw.2.2
  have h4 := initCount_le g
  omega

theorem initCount_allnodata (g : QGrid) (hw : GridWF g) (ha : AllNodata g) :
    initCount g = 0 := by
  unfold initCount
  have hfull : (scanOrder g).filter (fun ij => decide (getCell g ij.1 ij.2 = NODATA)) =
      scanOrder g := by
    rw [List.filter_eq_self]
    intro ij hij
    simp [ha ij hij]
  rw [hfull, scanOrder_length g hw.2.2]
  omega

theorem allnodata_run (g : QGrid) (t : ℚ) (hw : GridWF g) (ha : AllNodata g) :
    find_ground_run g t =
      some ⟨setLabel (initState g).ig 0 0 1, [], initCount g - 1, [(0, 0)], 1⟩ := by
  unfold find_ground_run
  have hseed : seedStep g (initState g) =
      ⟨setLabel (initState g).ig 0 0 1, [(0, 0, BIGINT)], initCount g - 1, [(0, 0)], 1⟩ := by
    unfold seedStep
    rw [seedSearch_default g _ ?_]
    · rfl
    · intro ij hij hcond
      exact hcond.1 (ha ij hij)
  rw [hseed]
  obtain ⟨m, hm⟩ : ∃ m, fgFuel g = m + 2 :=
    ⟨6 * (g.length * numCols g) + 6, by unfold fgFuel; omega⟩
  set S : FGState := ⟨setLabel (initState g).ig 0 0 1, [], initCount g - 1, [(0, 0)], 1⟩
    with hS
  have hbfs : ∀ ct : ℤ, dirs.foldl (neighborStep t g 0 0 BIGINT ct) S = S := by
    intro ct
    apply foldl_preserve (neighborStep t g 0 0 BIGINT ct) (fun s1 => s1 = S) dirs ?_ S rfl
    intro s1 d _ hs1
    rcases neighborStep_spec t g 0 0 BIGINT ct s1 d with heq | ⟨ni, nj, hni, hnj, heq⟩
    · rw [heq]; exact hs1
    · rw [heq]
      have hmem : (ni, nj) ∈ scanOrder g := by
        rw [mem_scanOrder]
        exact ⟨hni, by rw [rowLen_of_WF g hw.2.2 ni hni]; exact hnj⟩
      unfold visitNeighbor
      rw [if_pos (Or.inr (ha (ni, nj) hmem))]
      exact hs1
  have hb2 : bfsStep t g (0, 0, BIGINT) S = S := hbfs _
  rw [hm, fgLoop_succ]
  show fgLoop t g (m + 1) (bfsStep t g (0, 0, BIGINT) S) = some S
  rw [hb2, fgLoop_succ]
  have hic := initCount_allnodata g hw ha
  show (if 0 < S.count then _ else _) = _
  rw [if_neg (by rw [hS]; simp only []; omega)]

/-- C10: on a well-formed DepthGrid every cell of which is NODATA,
find_ground still performs exactly one seeding pass, labels the default
seed (0,0) Ground (1), and leaves every other cell Unclassified (-1). -/
theorem c10_allnodata_seeds_origin (g : QGrid) (t : ℚ) (hw : GridWF g) (ha : AllNodata g) :
    ∃ s, find_ground_run g t = some s ∧ s.passes = 1 ∧ getLabel s.ig 0 0 = 1 ∧
      s.lab_log = [(0, 0)] ∧ ∀ i j, ¬(i = 0 ∧ j = 0) → getLabel s.ig i j = -1 := by
  refine ⟨_, allnodata_run g t hw ha, rfl, ?_, rfl, ?_⟩
  · apply getLabel_setLabel_self
    · rw [(igWF_initState g).1]
      exact List.length_pos.mpr hw.1
    · have h0 : 0 < (initState g).ig.length := by
        rw [(igWF_initState g).1]
        exact List.length_pos.mpr hw.1
      rw [rowLen_of_IgWF g _ (igWF_initState g) 0 h0]
      exact hw.2.1
  · intro i j hne
    rw [getLabel_setLabel_ne _ _ _ _ _ _ hne]
    exact getLabel_initState g i j

/-- Witness for C10 on a concrete 2 by 2 all-NODATA grid. -/
theorem c10_allnodata_seeds_origin_witness :
    ∃ s, find_ground_run [[NODATA, NODATA], [NODATA, NODATA]] 5 = some s ∧
      s.passes = 1 ∧ getLabel s.ig 0 0 = 1 ∧ s.lab_log = [(0, 0)] ∧
      ∀ i j, ¬(i = 0 ∧ j = 0) → getLabel s.ig i j = -1 :=
  c10_allnodata_seeds_origin [[NODATA, NODATA], [NODATA, NODATA]] 5 (by decide) (by decide)

/-! Count exactness and NODATA inertness through the loop. -/

theorem bfsStep_eq (t : ℚ) (g : QGrid) (c : ℕ × ℕ × ℚ) (s : FGState) :
    bfsStep t g c s = dirs.foldl (neighborStep t g c.1 c.2.1 c.2.2
      (if getLabel s.ig c.1 c.2.1 = 0 then 0 else 1)) s := rfl

theorem visitNeighbor_inv (t : ℚ) (g : QGrid) (h : ℚ) (ct : ℤ) (s : FGState)
    (ni nj : ℕ) (hw : GridWF g) (hig : IgWF g s.ig) (hct : ct ≠ -1)
    (hni : ni < g.length) (hnj : nj < numCols g)
    (hce : s.count = (uCount g s.ig : ℤ))
    (hnd : ∀ ij ∈ scanOrder g, getCell g ij.1 ij.2 = NODATA → getLabel s.ig ij.1 ij.2 = -1) :
    (visitNeighbor t g h ct s ni nj).count = (uCount g (visitNeighbor t g h ct s ni nj).ig : ℤ) ∧
    (∀ ij ∈ scanOrder g, getCell g ij.1 ij.2 = NODATA →
      getLabel (visitNeighbor t g h ct s ni nj).ig ij.1 ij.2 = -1) := by
  rcases visitNeighbor_spec t g h ct s ni nj with heq | ⟨hlab, hnod, v, hv, heq⟩
  · rw [heq]; exact ⟨hce, hnd⟩
  · rw [heq]
    have hvne : v ≠ -1 := by
      rcases hv with rfl | rfl
      · exact hct
      · decide
    have hmem : (ni, nj) ∈ scanOrder g := by
      rw [mem_scanOrder]
      exact ⟨hni, by rw [rowLen_of_WF g hw.2.2 ni hni]; exact hnj⟩
    have hu := uCount_label g s.ig ni nj v hmem hnod hlab hvne
      (by rw [hig.1]; exact hni)
      (by rw [rowLen_of_IgWF g s.ig hig ni (by rw [hig.1]; exact hni)]; exact hnj)
    constructor
    · show s.count - 1 = (uCount g (setLabel s.ig ni nj v) : ℤ)
      omega
    · intro ij hij hn
      show getLabel (setLabel s.ig ni nj v) ij.1 ij.2 = -1
      have hne : ¬(ij.1 = ni ∧ ij.2 = nj) := by
        intro ⟨e1, e2⟩
        apply hnod
        rw [← e1, ← e2]
        exact hn
      rw [getLabel_setLabel_ne _ _ _ _ _ _ hne]
      exact hnd ij hij hn

theorem bfsStep_inv (t : ℚ) (g : QGrid) (c : ℕ × ℕ × ℚ) (s : FGState)
    (hw : GridWF g) (hig : IgWF g s.ig)
    (hce : s.count = (uCount g s.ig : ℤ))
    (hnd : ∀ ij ∈ scanOrder g, getCell g ij.1 ij.2 = NODATA → getLabel s.ig ij.1 ij.2 = -1) :
    (bfsStep t g c s).count = (uCount g (bfsStep t g c s).ig : ℤ) ∧
    (∀ ij ∈ scanOrder g, getCell g ij.1 ij.2 = NODATA →
      getLabel (bfsStep t g c s).ig ij.1 ij.2 = -1) := by
  rw [bfsStep_eq]
  have hct : (if getLabel s.ig c.1 c.2.1 = 0 then (0 : ℤ) else 1) ≠ -1 := by
    split
    · decide
    · decide
  have hfold := foldl_preserve (neighborStep t g c.1 c.2.1 c.2.2
      (if getLabel s.ig c.1 c.2.1 = 0 then 0 else 1))
    (fun s1 => IgWF g s1.ig ∧ s1.count = (uCount g s1.ig : ℤ) ∧
      ∀ ij ∈ scanOrder g, getCell g ij.1 ij.2 = NODATA → getLabel s1.ig ij.1 ij.2 = -1)
    dirs ?_ s ⟨hig, hce, hnd⟩
  · exact ⟨hfold.2.1, hfold.2.2⟩
  · intro s1 d _ hs1
    rcases neighborStep_spec t g c.1 c.2.1 c.2.2 _ s1 d with heq | ⟨ni, nj, hni, hnj, heq⟩
    · rw [heq]; exact hs1
    · rw [heq]
      have hinv := visitNeighbor_inv t g c.2.2 _ s1 ni nj hw hs1.1 hct hni hnj hs1.2.1 hs1.2.2
      exact ⟨(visitNeighbor_wf_measure t g c.2.2 _ s1 ni nj hw hs1.1 hct hni hnj).1,
        hinv.1, hinv.2⟩

theorem seedStep_inv (g : QGrid) (s : FGState) (hw : GridWF g) (hig : IgWF g s.ig)
    (hsv : SmallValues g) (hc : 0 < s.count)
    (hce : s.count = (uCount g s.ig : ℤ))
    (hnd : ∀ ij ∈ scanOrder g, getCell g ij.1 ij.2 = NODATA → getLabel s.ig ij.1 ij.2 = -1) :
    (seedStep g s).count = (uCount g (seedStep g s).ig : ℤ) ∧
    (∀ ij ∈ scanOrder g, getCell g ij.1 ij.2 = NODATA →
      getLabel (seedStep g s).ig ij.1 ij.2 = -1) ∧
    getCell g (seedSearch g s.ig).2.1 (seedSearch g s.ig).2.2 ≠ NODATA ∧
    getLabel s.ig (seedSearch g s.ig).2.1 (seedSearch g s.ig).2.2 = -1 ∧
    (seedSearch g s.ig).2 ∈ scanOrder g := by
  have hpos : 0 < uCount g s.ig := by omega
  obtain ⟨c, hcm, hcp⟩ : ∃ c ∈ scanOrder g,
      getCell g c.1 c.2 ≠ NODATA ∧ getLabel s.ig c.1 c.2 = -1 := by
    unfold uCount at hpos
    obtain ⟨x, hx⟩ := List.exists_mem_of_length_pos hpos
    have hx2 := List.mem_filter.mp hx
    refine ⟨x, hx2.1, ?_⟩
    simpa using hx2.2
  have hfind := seedSearch_finds g s.ig c hcm hcp.1 hcp.2 (hsv c hcm hcp.1)
  obtain ⟨hmem2, hnod2, hlab2, hval2⟩ := hfind
  have hmem3 : ((seedSearch g s.ig).2.1, (seedSearch g s.ig).2.2) ∈ scanOrder g := hmem2
  have hi2 : (seedSearch g s.ig).2.1 < g.length :=
    ((mem_scanOrder g _ _).mp hmem3).1
  have hj2 : (seedSearch g s.ig).2.2 < numCols g := by
    have := ((mem_scanOrder g _ _).mp hmem3).2
    rwa [rowLen_of_WF g hw.2.2 _ hi2] at this
  have hu := uCount_label g s.ig (seedSearch g s.ig).2.1 (seedSearch g s.ig).2.2 1
    hmem3 hnod2 hlab2 (by decide)
    (by rw [hig.1]; exact hi2)
    (by rw [rowLen_of_IgWF g s.ig hig _ (by rw [hig.1]; exact hi2)]; exact hj2)
  refine ⟨?_, ?_, hnod2, hlab2, hmem2⟩
  · show s.count - 1 = (uCount g (setLabel s.ig _ _ 1) : ℤ)
    omega
  · intro ij hij hn
    show getLabel (setLabel s.ig _ _ 1) ij.1 ij.2 = -1
    have hne : ¬(ij.1 = (seedSearch g s.ig).2.1 ∧ ij.2 = (seedSearch g s.ig).2.2) := by
      intro ⟨e1, e2⟩
      apply hnod2
      rw [← e1, ← e2]
      exact hn
    rw [getLabel_setLabel_ne _ _ _ _ _ _ hne]
    exact hnd ij hij hn

/-- C5 (amended): for a well-formed DepthGrid with at least one non-NODATA
cell and all non-NODATA values below BIGINT, every NODATA cell keeps the
Unclassified label -1 in the grid find_ground returns: it is never labeled
Ground or Building (and in particular is never seeded, since seeding
labels the seed 1). -/
theorem c5_nodata_inert (g : QGrid) (t : ℚ) (hw : GridWF g) (hs : SmallValues g)
    (hd : SomeData g) :
    ∃ ig, find_ground g t = some ig ∧
      ∀ ij ∈ scanOrder g, getCell g ij.1 ij.2 = NODATA → getLabel ig ij.1 ij.2 = -1 := by
  have hig0 := igWF_initState g
  have hce0 : (initState g).count = (uCount g (initState g).ig : ℤ) :=
    initCount_eq_uCount g hw
  have hnd0 : ∀ ij ∈ scanOrder g, getCell g ij.1 ij.2 = NODATA →
      getLabel (initState g).ig ij.1 ij.2 = -1 :=
    fun ij _ _ => getLabel_initState g ij.1 ij.2
  have hc0 : 0 < (initState g).count := by
    rw [hce0]
    obtain ⟨c, hcm, hcd⟩ := hd
    have hmem : c ∈ (scanOrder g).filter
        (fun ij => decide (getCell g ij.1 ij.2 ≠ NODATA ∧
          getLabel (initState g).ig ij.1 ij.2 = -1)) := by
      rw [List.mem_filter]
      exact ⟨hcm, by simp [hcd, getLabel_initState]⟩
    have : 0 < uCount g (initState g).ig :=
      List.length_pos.mpr (List.ne_nil_of_mem hmem)
    omega
  have hentry := seedStep_inv g (initState g) hw hig0 hs hc0 hce0 hnd0
  have higE : IgWF g (seedStep g (initState g)).ig :=
    igWF_setLabel g _ _ _ 1 hig0
  have hrun := fgLoop_run t g hw
    (fun s => s.count = (uCount g s.ig : ℤ) ∧
      ∀ ij ∈ scanOrder g, getCell g ij.1 ij.2 = NODATA → getLabel s.ig ij.1 ij.2 = -1)
    (fun c s hig hP => bfsStep_inv t g c s hw hig hP.1 hP.2)
    (fun s hig _ hc hP => ⟨(seedStep_inv g s hw hig hs hc hP.1 hP.2).1,
      (seedStep_inv g s hw hig hs hc hP.1 hP.2).2.1⟩)
    (fgFuel g) (seedStep g (initState g)) higE ⟨hentry.1, hentry.2.1⟩ (entry_measure g hw)
  obtain ⟨s1, hs1, hP1, _, _, _⟩ := hrun
  refine ⟨s1.ig, ?_, hP1.2⟩
  unfold find_ground find_ground_run
  rw [hs1]
  rfl

/-- Witness for C5 on the grid [[NODATA, 5]] with threshold 0. -/
theorem c5_nodata_inert_witness :
    ∃ ig, find_ground [[NODATA, 5]] 0 = some ig ∧
      ∀ ij ∈ scanOrder [[NODATA, 5]], getCell [[NODATA, 5]] ij.1 ij.2 = NODATA →
        getLabel ig ij.1 ij.2 = -1 :=
  c5_nodata_inert [[NODATA, 5]] 0 (by decide) (by decide) (by decide)

/-! Pass counting and the at-most-once labeling log. -/

theorem visitNeighbor_passes_count (t : ℚ) (g : QGrid) (h : ℚ) (ct : ℤ) (s : FGState)
    (ni nj : ℕ) :
    (visitNeighbor t g h ct s ni nj).passes = s.passes ∧
    (visitNeighbor t g h ct s ni nj).count ≤ s.count := by
  rcases visitNeighbor_spec t g h ct s ni nj with heq | ⟨_, _, v, _, heq⟩ <;> rw [heq]
  · exact ⟨rfl, le_refl _⟩
  · refine ⟨rfl, ?_⟩
    show s.count - 1 ≤ s.count
    omega

theorem bfsStep_passes_count (t : ℚ) (g : QGrid) (c : ℕ × ℕ × ℚ) (s : FGState) :
    (bfsStep t g c s).passes = s.passes ∧ (bfsStep t g c s).count ≤ s.count := by
  rw [bfsStep_eq]
  apply foldl_preserve _ (fun s1 => s1.passes = s.passes ∧ s1.count ≤ s.count) dirs ?_ s
    ⟨rfl, le_refl _⟩
  intro s1 d _ hs1
  rcases neighborStep_spec t g c.1 c.2.1 c.2.2 _ s1 d with heq | ⟨ni, nj, _, _, heq⟩
  · rw [heq]; exact hs1
  · rw [heq]
    have hv := visitNeighbor_passes_count t g c.2.2
      (if getLabel s.ig c.1 c.2.1 = 0 then 0 else 1) s1 ni nj
    exact ⟨hv.1.trans hs1.1, le_trans hv.2 hs1.2⟩

theorem log_inv_extend (ig : IGrid) (lg : List (ℕ × ℕ)) (i j : ℕ) (v : ℤ)
    (hi : i < ig.length) (hj : j < (ig.getD i []).length)
    (hlab : getLabel ig i j = -1) (hv : v ≠ -1)
    (hl1 : lg.Nodup) (hl2 : ∀ e ∈ lg, getLabel ig e.1 e.2 ≠ -1) :
    (lg ++ [(i, j)]).Nodup ∧
    ∀ e ∈ lg ++ [(i, j)], getLabel (setLabel ig i j v) e.1 e.2 ≠ -1 := by
  constructor
  · apply List.Nodup.append hl1 (List.nodup_singleton _)
    intro e he1 he2
    rw [List.mem_singleton] at he2
    subst he2
    exact hl2 _ he1 hlab
  · intro e he
    rcases List.mem_append.mp he with hh | hh
    · rcases getLabel_setLabel_or ig i j e.1 e.2 v with he2 | he2 <;> rw [he2]
      · exact hv
      · exact hl2 e hh
    · rw [List.mem_singleton] at hh
      subst hh
      rw [getLabel_setLabel_self ig i j v hi hj]
      exact hv

theorem visitNeighbor_loginv (t : ℚ) (g : QGrid) (h : ℚ) (ct : ℤ) (s : FGState)
    (ni nj : ℕ) (hig : IgWF g s.ig) (hct : ct ≠ -1)
    (hni : ni < g.length) (hnj : nj < numCols g)
    (hl1 : s.lab_log.Nodup) (hl2 : ∀ e ∈ s.lab_log, getLabel s.ig e.1 e.2 ≠ -1) :
    (visitNeighbor t g h ct s ni nj).lab_log.Nodup ∧
    ∀ e ∈ (visitNeighbor t g h ct s ni nj).lab_log,
      getLabel (visitNeighbor t g h ct s ni nj).ig e.1 e.2 ≠ -1 := by
  rcases visitNeighbor_spec t g h ct s ni nj with heq | ⟨hlab, hnod, v, hv, heq⟩
  · rw [heq]; exact ⟨hl1, hl2⟩
  · rw [heq]
    have hvne : v ≠ -1 := by
      rcases hv with rfl | rfl
      · exact hct
      · decide
    exact log_inv_extend s.ig s.lab_log ni nj v
      (by rw [hig.1]; exact hni)
      (by rw [rowLen_of_IgWF g s.ig hig ni (by rw [hig.1]; exact hni)]; exact hnj)
      hlab hvne hl1 hl2

theorem bfsStep_loginv (t : ℚ) (g : QGrid) (c : ℕ × ℕ × ℚ) (s : FGState)
    (hw : GridWF g) (hig : IgWF g s.ig)
    (hl1 : s.lab_log.Nodup) (hl2 : ∀ e ∈ s.lab_log, getLabel s.ig e.1 e.2 ≠ -1) :
    (bfsStep t g c s).lab_log.Nodup ∧
    ∀ e ∈ (bfsStep t g c s).lab_log, getLabel (bfsStep t g c s).ig e.1 e.2 ≠ -1 := by
  rw [bfsStep_eq]
  have hct : (if getLabel s.ig c.1 c.2.1 = 0 then (0 : ℤ) else 1) ≠ -1 := by
    split
    · decide
    · decide
  have hfold := foldl_preserve (neighborStep t g c.1 c.2.1 c.2.2
      (if getLabel s.ig c.1 c.2.1 = 0 then 0 else 1))
    (fun s1 => IgWF g s1.ig ∧ s1.lab_log.Nodup ∧
      ∀ e ∈ s1.lab_log, getLabel s1.ig e.1 e.2 ≠ -1)
    dirs ?_ s ⟨hig, hl1, hl2⟩
  · exact ⟨hfold.2.1, hfold.2.2⟩
  · intro s1 d _ hs1
    rcases neighborStep_spec t g c.1 c.2.1 c.2.2 _ s1 d with heq | ⟨ni, nj, hni, hnj, heq⟩
    · rw [heq]; exact hs1
    · rw [heq]
      have hli := visitNeighbor_loginv t g c.2.2 _ s1 ni nj hs1.1 hct hni hnj
        hs1.2.1 hs1.2.2
      exact ⟨(visitNeighbor_wf_measure t g c.2.2 _ s1 ni nj hw hs1.1 hct hni hnj).1,
        hli.1, hli.2⟩

theorem seedStep_loginv (g : QGrid) (s : FGState) (hw : GridWF g) (hig : IgWF g s.ig)
    (hsv : SmallValues g) (hc : 0 < s.count)
    (hce : s.count = (uCount g s.ig : ℤ))
    (hnd : ∀ ij ∈ scanOrder g, getCell g ij.1 ij.2 = NODATA → getLabel s.ig ij.1 ij.2 = -1)
    (hl1 : s.lab_log.Nodup) (hl2 : ∀ e ∈ s.lab_log, getLabel s.ig e.1 e.2 ≠ -1) :
    (seedStep g s).lab_log.Nodup ∧
    ∀ e ∈ (seedStep g s).lab_log, getLabel (seedStep g s).ig e.1 e.2 ≠ -1 := by
  obtain ⟨-, -, hnod2, hlab2, hmem2⟩ := seedStep_inv g s hw hig hsv hc hce hnd
  have hmem3 : ((seedSearch g s.ig).2.1, (seedSearch g s.ig).2.2) ∈ scanOrder g := hmem2
  have hi2 : (seedSearch g s.ig).2.1 < g.length := ((mem_scanOrder g _ _).mp hmem3).1
  have hj2 : (seedSearch g s.ig).2.2 < numCols g := by
    have := ((mem_scanOrder g _ _).mp hmem3).2
    rwa [rowLen_of_WF g hw.2.2 _ hi2] at this
  exact log_inv_extend s.ig s.lab_log _ _ 1
    (by rw [hig.1]; exact hi2)
    (by rw [rowLen_of_IgWF g s.ig hig _ (by rw [hig.1]; exact hi2)]; exact hj2)
    hlab2 (by decide) hl1 hl2

theorem not_someData_allNodata (g : QGrid) (h : ¬ SomeData g) : AllNodata g := by
  intro ij hij
  by_contra hne
  exact h ⟨ij, hij, hne⟩

/-- C8 (amended): on every well-formed DepthGrid find_ground terminates
(the fueled loop returns a final state), the outer do-while performs at
most rows*cols seeding passes, and when every non-NODATA value is below
BIGINT the label write log has no duplicates: every cell is labeled at
most once. -/
theorem c8_terminates (g : QGrid) (t : ℚ) (hw : GridWF g) :
    ∃ s, find_ground_run g t = some s ∧ s.passes ≤ g.length * numCols g ∧
      (SmallValues g → s.lab_log.Nodup) := by
  have hig0 := igWF_initState g
  have higE : IgWF g (seedStep g (initState g)).ig := igWF_setLabel g _ _ _ 1 hig0
  -- part one: termination and the pass bound
  have hP0 : (seedStep g (initState g)).passes +
      (seedStep g (initState g)).count.toNat ≤ g.length * numCols g := by
    show 1 + ((initState g).count - 1).toNat ≤ g.length * numCols g
    have h4 := initCount_le g
    have hrc : 0 < g.length * numCols g :=
      Nat.mul_pos (List.length_pos.mpr hw.1) hw.2.1
    show 1 + (initCount g - 1).toNat ≤ g.length * numCols g
    omega
  have hrun1 := fgLoop_run t g hw
    (fun s => s.passes + s.count.toNat ≤ g.length * numCols g)
    (fun c s hig hP => by
      have hb := bfsStep_passes_count t g c s
      show (bfsStep t g c s).passes + (bfsStep t g c s).count.toNat ≤ _
      have hP2 : s.passes + s.count.toNat ≤ g.length * numCols g := hP
      omega)
    (fun s hig hq hc hP => by
      show s.passes + 1 + (s.count - 1).toNat ≤ _
      omega)
    (fgFuel g) (seedStep g (initState g)) higE hP0 (entry_measure g hw)
  obtain ⟨s1, hs1, hP1, _, _, hcle⟩ := hrun1
  refine ⟨s1, hs1, by omega, ?_⟩
  intro hsv
  by_cases hd : SomeData g
  · -- invariant run with the log
    have hce0 : (initState g).count = (uCount g (initState g).ig : ℤ) :=
      initCount_eq_uCount g hw
    have hnd0 : ∀ ij ∈ scanOrder g, getCell g ij.1 ij.2 = NODATA →
        getLabel (initState g).ig ij.1 ij.2 = -1 :=
      fun ij _ _ => getLabel_initState g ij.1 ij.2
    have hc0 : 0 < (initState g).count := by
      rw [hce0]
      obtain ⟨c, hcm, hcd⟩ := hd
      have hmem : c ∈ (scanOrder g).filter
          (fun ij => decide (getCell g ij.1 ij.2 ≠ NODATA ∧
            getLabel (initState g).ig ij.1 ij.2 = -1)) := by
        rw [List.mem_filter]
        exact ⟨hcm, by simp [hcd, getLabel_initState]⟩
      have : 0 < uCount g (initState g).ig :=
        List.length_pos.mpr (List.ne_nil_of_mem hmem)
      omega
    have hentry := seedStep_inv g (initState g) hw hig0 hsv hc0 hce0 hnd0
    have hlogE := seedStep_loginv g (initState g) hw hig0 hsv hc0 hce0 hnd0
      (List.nodup_nil)
      (fun e he => absurd he (by
        rw [show (initState g).lab_log = [] from rfl]
        exact List.not_mem_nil e))
    have hrun2 := fgLoop_run t g hw
      (fun s => (s.count = (uCount g s.ig : ℤ) ∧
        ∀ ij ∈ scanOrder g, getCell g ij.1 ij.2 = NODATA → getLabel s.ig ij.1 ij.2 = -1) ∧
        (s.lab_log.Nodup ∧ ∀ e ∈ s.lab_log, getLabel s.ig e.1 e.2 ≠ -1))
      (fun c s hig hP => ⟨bfsStep_inv t g c s hw hig hP.1.1 hP.1.2,
        bfsStep_loginv t g c s hw hig hP.2.1 hP.2.2⟩)
      (fun s hig hq hc hP => ⟨⟨(seedStep_inv g s hw hig hsv hc hP.1.1 hP.1.2).1,
        (seedStep_inv g s hw hig hsv hc hP.1.1 hP.1.2).2.1⟩,
        seedStep_loginv g s hw hig hsv hc hP.1.1 hP.1.2 hP.2.1 hP.2.2⟩)
      (fgFuel g) (seedStep g (initState g)) higE
      ⟨⟨hentry.1, hentry.2.1⟩, hlogE⟩ (entry_measure g hw)
    obtain ⟨s2, hs2, hP2, _⟩ := hrun2
    have heq : s1 = s2 := by
      have := hs1.symm.trans hs2
      exact Option.some.inj this
    rw [heq]
    exact hP2.2.1
  · -- all NODATA: the explicit run
    have ha := not_someData_allNodata g hd
    have hrunA := allnodata_run g t hw ha
    have heq : s1 = ⟨setLabel (initState g).ig 0 0 1, [], initCount g - 1, [(0, 0)], 1⟩ := by
      have := hs1.symm.trans hrunA
      exact Option.some.inj this
    rw [heq]
    exact List.nodup_singleton _

/-- Witness for C8 on a concrete 2 by 2 grid. -/
theorem c8_terminates_witness :
    ∃ s, find_ground_run [[1, 2], [3, 4]] 0 = some s ∧
      s.passes ≤ ([[1, 2], [3, 4]] : QGrid).length * numCols [[1, 2], [3, 4]] ∧
      (SmallValues [[1, 2], [3, 4]] → s.lab_log.Nodup) :=
  c8_terminates [[1, 2], [3, 4]] 0 (by decide)

/-! Flat grids: every cell becomes Ground for nonnegative thresholds. -/

theorem getLabel_default_or_scan (g : QGrid) (ig : IGrid) (hw : GridWF g)
    (hig : IgWF g ig) (i j : ℕ) :
    (i, j) ∈ scanOrder g ∨ getLabel ig i j = -1 := by
  by_cases hi : i < g.length
  · by_cases hj : j < numCols g
    · left
      rw [mem_scanOrder]
      exact ⟨hi, by rw [rowLen_of_WF g hw.2.2 i hi]; exact hj⟩
    · right
      unfold getLabel
      by_cases hii : i < ig.length
      · rw [List.getD_eq_getElem?_getD (ig.getD i []) j (-1), List.getElem?_eq_none]
        · rfl
        · rw [rowLen_of_IgWF g ig hig i hii]
          omega
      · rw [List.getD_eq_getElem?_getD ig i [], List.getElem?_eq_none (by omega)]
        rfl
  · right
    unfold getLabel
    have hii : ¬ i < ig.length := by rw [hig.1]; exact hi
    rw [List.getD_eq_getElem?_getD ig i [], List.getElem?_eq_none (by omega)]
    rfl

theorem visitNeighbor_flat (t v : ℚ) (g : QGrid) (ct : ℤ) (s : FGState) (ni nj : ℕ)
    (hw : GridWF g) (hflat : FlatGrid g v) (ht : 0 ≤ t)
    (hni : ni < g.length) (hnj : nj < numCols g) :
    visitNeighbor t g v ct s ni nj = s ∨
    visitNeighbor t g v ct s ni nj =
      ⟨setLabel s.ig ni nj ct, s.q ++ [(ni, nj, v)], s.count - 1,
       s.lab_log ++ [(ni, nj)], s.passes⟩ := by
  have hmem : (ni, nj) ∈ scanOrder g := by
    rw [mem_scanOrder]
    exact ⟨hni, by rw [rowLen_of_WF g hw.2.2 ni hni]; exact hnj⟩
  have hcell : getCell g ni nj = v := hflat _ hmem
  unfold visitNeighbor
  by_cases h1 : getLabel s.ig ni nj ≠ -1 ∨ getCell g ni nj = NODATA
  · rw [if_pos h1]; left; rfl
  · rw [if_neg h1]
    right
    rw [if_pos ⟨by rw [hcell, sub_self]; exact ht, by rw [hcell, sub_self]⟩, hcell]

theorem bfsStep_flat (t v : ℚ) (g : QGrid) (c : ℕ × ℕ × ℚ) (s : FGState)
    (hw : GridWF g) (hflat : FlatGrid g v) (ht : 0 ≤ t) (hig : IgWF g s.ig)
    (hcv : c.2.2 = v)
    (hlab : ∀ ij ∈ scanOrder g, getLabel s.ig ij.1 ij.2 = -1 ∨ getLabel s.ig ij.1 ij.2 = 1)
    (hq : ∀ e ∈ s.q, e.2.2 = v) :
    (∀ e ∈ (bfsStep t g c s).q, e.2.2 = v) ∧
    (∀ ij ∈ scanOrder g, getLabel (bfsStep t g c s).ig ij.1 ij.2 = -1 ∨
      getLabel (bfsStep t g c s).ig ij.1 ij.2 = 1) := by
  have hne0 : ¬ getLabel s.ig c.1 c.2.1 = 0 := by
    rcases getLabel_default_or_scan g s.ig hw hig c.1 c.2.1 with hmem | hdef
    · have hcase := hlab (c.1, c.2.1) hmem
      simp only [Prod.fst, Prod.snd] at hcase
      rcases hcase with hcase | hcase <;> omega
    · omega
  rw [bfsStep_eq, if_neg hne0]
  have hfold := foldl_preserve (neighborStep t g c.1 c.2.1 c.2.2 1)
    (fun s1 => IgWF g s1.ig ∧ (∀ e ∈ s1.q, e.2.2 = v) ∧
      ∀ ij ∈ scanOrder g, getLabel s1.ig ij.1 ij.2 = -1 ∨ getLabel s1.ig ij.1 ij.2 = 1)
    dirs ?_ s ⟨hig, hq, hlab⟩
  · exact ⟨hfold.2.1, hfold.2.2⟩
  · intro s1 d _ hs1
    rcases neighborStep_spec t g c.1 c.2.1 c.2.2 1 s1 d with heq | ⟨ni, nj, hni, hnj, heq⟩
    · rw [heq]; exact hs1
    · rw [heq, hcv]
      rcases visitNeighbor_flat t v g 1 s1 ni nj hw hflat ht hni hnj with heq2 | heq2
      · rw [heq2]; exact hs1
      · rw [heq2]
        refine ⟨igWF_setLabel g s1.ig ni nj 1 hs1.1, ?_, ?_⟩
        · intro e he
          rcases List.mem_append.mp he with hh | hh
          · exact hs1.2.1 e hh
          · rw [List.mem_singleton] at hh
            subst hh
            rfl
        · intro ij hij
          rcases getLabel_setLabel_or s1.ig ni nj ij.1 ij.2 1 with he2 | he2 <;> rw [he2]
          · right; rfl
          · exact hs1.2.2 ij hij

theorem seedStep_flat (v : ℚ) (g : QGrid) (s : FGState) (hw : GridWF g)
    (hflat : FlatGrid g v) (hvn : v ≠ NODATA) (hvb : v < BIGINT)
    (hig : IgWF g s.ig) (hc : 0 < s.count)
    (hce : s.count = (uCount g s.ig : ℤ))
    (hlab : ∀ ij ∈ scanOrder g, getLabel s.ig ij.1 ij.2 = -1 ∨ getLabel s.ig ij.1 ij.2 = 1)
    (hq : ∀ e ∈ s.q, e.2.2 = v) :
    (∀ e ∈ (seedStep g s).q, e.2.2 = v) ∧
    (∀ ij ∈ scanOrder g, getLabel (seedStep g s).ig ij.1 ij.2 = -1 ∨
      getLabel (seedStep g s).ig ij.1 ij.2 = 1) := by
  have hsv : SmallValues g := fun ij hij _ => by rw [hflat ij hij]; exact hvb
  have hnd : ∀ ij ∈ scanOrder g, getCell g ij.1 ij.2 = NODATA →
      getLabel s.ig ij.1 ij.2 = -1 := by
    intro ij hij hn
    rw [hflat ij hij] at hn
    exact (hvn hn).elim
  obtain ⟨-, -, hnod2, hlab2, hmem2⟩ := seedStep_inv g s hw hig hsv hc hce hnd
  have hmem3 : ((seedSearch g s.ig).2.1, (seedSearch g s.ig).2.2) ∈ scanOrder g := hmem2
  have hval : getCell g (seedSearch g s.ig).2.1 (seedSearch g s.ig).2.2 =
      (seedSearch g s.ig).1 := by
    have hpos : 0 < uCount g s.ig := by omega
    obtain ⟨c, hcm, hcp⟩ : ∃ c ∈ scanOrder g,
        getCell g c.1 c.2 ≠ NODATA ∧ getLabel s.ig c.1 c.2 = -1 := by
      unfold uCount at hpos
      obtain ⟨x, hx⟩ := List.exists_mem_of_length_pos hpos
      have hx2 := List.mem_filter.mp hx
      refine ⟨x, hx2.1, ?_⟩
      simpa using hx2.2
    exact (seedSearch_finds g s.ig c hcm hcp.1 hcp.2 (hsv c hcm hcp.1)).2.2.2
  have hv1 : (seedSearch g s.ig).1 = v := by
    rw [← hval, hflat _ hmem3]
  constructor
  · intro e he
    rcases List.mem_append.mp he with hh | hh
    · exact hq e hh
    · rw [List.mem_singleton] at hh
      subst hh
      exact hv1
  · intro ij hij
    show getLabel (setLabel s.ig _ _ 1) ij.1 ij.2 = -1 ∨ getLabel (setLabel s.ig _ _ 1) ij.1 ij.2 = 1
    rcases getLabel_setLabel_or s.ig (seedSearch g s.ig).2.1 (seedSearch g s.ig).2.2
      ij.1 ij.2 1 with he2 | he2 <;> rw [he2]
    · right; rfl
    · exact hlab ij hij

/-- C7 (amended): on a well-formed flat DepthGrid whose common value is not
NODATA and is below BIGINT, and for every nonnegative threshold,
find_ground labels every cell Ground (1). -/
theorem c7_flat_all_ground (g : QGrid) (v t : ℚ) (hw : GridWF g) (hflat : FlatGrid g v)
    (hvn : v ≠ NODATA) (hvb : v < BIGINT) (ht : 0 ≤ t) :
    ∃ ig, find_ground g t = some ig ∧ ∀ ij ∈ scanOrder g, getLabel ig ij.1 ij.2 = 1 := by
  have hsv : SmallValues g := fun ij hij _ => by rw [hflat ij hij]; exact hvb
  have hnd : ∀ (igx : IGrid), ∀ ij ∈ scanOrder g, getCell g ij.1 ij.2 = NODATA →
      getLabel igx ij.1 ij.2 = -1 ∨ True := fun _ _ _ _ => Or.inr trivial
  have hig0 := igWF_initState g
  have higE : IgWF g (seedStep g (initState g)).ig := igWF_setLabel g _ _ _ 1 hig0
  have hce0 : (initState g).count = (uCount g (initState g).ig : ℤ) :=
    initCount_eq_uCount g hw
  have hnd0 : ∀ ij ∈ scanOrder g, getCell g ij.1 ij.2 = NODATA →
      getLabel (initState g).ig ij.1 ij.2 = -1 :=
    fun ij _ _ => getLabel_initState g ij.1 ij.2
  have hmem00 : ((0 : ℕ), (0 : ℕ)) ∈ scanOrder g := by
    rw [mem_scanOrder]
    have h0 : 0 < g.length := List.length_pos.mpr hw.1
    exact ⟨h0, by rw [rowLen_of_WF g hw.2.2 0 h0]; exact hw.2.1⟩
  have hc0 : 0 < (initState g).count := by
    rw [hce0]
    have hmem : ((0 : ℕ), (0 : ℕ)) ∈ (scanOrder g).filter
        (fun ij => decide (getCell g ij.1 ij.2 ≠ NODATA ∧
          getLabel (initState g).ig ij.1 ij.2 = -1)) := by
      rw [List.mem_filter]
      refine ⟨hmem00, ?_⟩
      have : getCell g 0 0 = v := hflat _ hmem00
      simp [this, hvn, getLabel_initState]
    have : 0 < uCount g (initState g).ig :=
      List.length_pos.mpr (List.ne_nil_of_mem hmem)
    omega
  have hentry := seedStep_inv g (initState g) hw hig0 hsv hc0 hce0 hnd0
  have hflatE := seedStep_flat v g (initState g) hw hflat hvn hvb hig0 hc0 hce0
    (fun ij _ => Or.inl (getLabel_initState g ij.1 ij.2))
    (fun e he => absurd he (by
      rw [show (initState g).q = [] from rfl]
      exact List.not_mem_nil e))
  have hrun := fgLoop_run t g hw
    (fun s => (s.count = (uCount g s.ig : ℤ)) ∧ (∀ e ∈ s.q, e.2.2 = v) ∧
      ∀ ij ∈ scanOrder g, getLabel s.ig ij.1 ij.2 = -1 ∨ getLabel s.ig ij.1 ij.2 = 1)
    ?hbfs ?hseed
    (fgFuel g) (seedStep g (initState g)) higE
    ⟨hentry.1, hflatE.1, hflatE.2⟩ (entry_measure g hw)
  case hbfs =>
    intro c s hig hP
    have hqc : c.2.2 = v := hP.2.1 c (List.mem_cons_self c s.q)
    have hqrest : ∀ e ∈ s.q, e.2.2 = v :=
      fun e he => hP.2.1 e (List.mem_cons_of_mem c he)
    have hndx : ∀ ij ∈ scanOrder g, getCell g ij.1 ij.2 = NODATA →
        getLabel s.ig ij.1 ij.2 = -1 := by
      intro ij hij hn
      rw [hflat ij hij] at hn
      exact (hvn hn).elim
    have hf := bfsStep_flat t v g c s hw hflat ht hig hqc hP.2.2 hqrest
    exact ⟨(bfsStep_inv t g c s hw hig hP.1 hndx).1, hf.1, hf.2⟩
  case hseed =>
    intro s hig hq0 hc hP
    have hndx : ∀ ij ∈ scanOrder g, getCell g ij.1 ij.2 = NODATA →
        getLabel s.ig ij.1 ij.2 = -1 := by
      intro ij hij hn
      rw [hflat ij hij] at hn
      exact (hvn hn).elim
    have hf := seedStep_flat v g s hw hflat hvn hvb hig hc hP.1 hP.2.2 hP.2.1
    exact ⟨(seedStep_inv g s hw hig hsv hc hP.1 hndx).1, hf.1, hf.2⟩
  obtain ⟨s1, hs1, hP1, _, _, hcle⟩ := hrun
  refine ⟨s1.ig, ?_, ?_⟩
  · unfold find_ground find_ground_run
    rw [hs1]
    rfl
  · intro ij hij
    have hu0 : uCount g s1.ig = 0 := by
      have := hP1.1
      omega
    have hempty : (scanOrder g).filter
        (fun x => decide (getCell g x.1 x.2 ≠ NODATA ∧ getLabel s1.ig x.1 x.2 = -1)) = [] := by
      unfold uCount at hu0
      exact List.length_eq_zero.mp hu0
    have hno : ¬ (getCell g ij.1 ij.2 ≠ NODATA ∧ getLabel s1.ig ij.1 ij.2 = -1) := by
      intro hcontra
      have : ij ∈ (scanOrder g).filter
          (fun x => decide (getCell g x.1 x.2 ≠ NODATA ∧ getLabel s1.ig x.1 x.2 = -1)) := by
        rw [List.mem_filter]
        exact ⟨hij, by simp [hcontra.1, hcontra.2]⟩
      rw [hempty] at this
      exact List.not_mem_nil ij this
    have hnv : getCell g ij.1 ij.2 ≠ NODATA := by
      rw [hflat ij hij]
      exact hvn
    rcases hP1.2.2 ij hij with hcase | hcase
    · exact absurd ⟨hnv, hcase⟩ hno
    · exact hcase

/-- Witness for C7 on a flat 2 by 2 grid of threes with threshold 0. -/
theorem c7_flat_all_ground_witness :
    ∃ ig, find_ground [[3, 3], [3, 3]] 0 = some ig ∧
      ∀ ij ∈ scanOrder [[3, 3], [3, 3]], getLabel ig ij.1 ij.2 = 1 :=
  c7_flat_all_ground [[3, 3], [3, 3]] 3 0 (by decide) (by decide) (by decide) (by decide)
    (by decide)

/-! Lockstep comparison of two runs with nonnegative thresholds. -/

theorem getLabel_setLabel_oob (ig : IGrid) (i j : ℕ) (v : ℤ)
    (h : ¬(i < ig.length ∧ j < (ig.getD i []).length)) :
    getLabel (setLabel ig i j v) i j = getLabel ig i j := by
  unfold getLabel setLabel
  by_cases hi : i < ig.length
  · have hj : ¬ j < (ig.getD i []).length := fun hj => h ⟨hi, hj⟩
    rw [getD_set_self _ _ _ _ hi, List.set_eq_of_length_le (by omega)]
  · rw [List.set_eq_of_length_le (by omega)]

theorem row_len_eq (g : QGrid) (ig1 ig2 : IGrid) (hig1 : IgWF g ig1)
    (hig2 : IgWF g ig2) (i : ℕ) :
    (ig1.getD i []).length = (ig2.getD i []).length := by
  by_cases hi : i < ig1.length
  · have hi2 : i < ig2.length := by rw [hig2.1, ← hig1.1]; exact hi
    rw [rowLen_of_IgWF g ig1 hig1 i hi, rowLen_of_IgWF g ig2 hig2 i hi2]
  · have hi2 : ¬ i < ig2.length := by rw [hig2.1, ← hig1.1]; exact hi
    rw [List.getD_eq_getElem?_getD ig1 i [], List.getElem?_eq_none (by omega),
        List.getD_eq_getElem?_getD ig2 i [], List.getElem?_eq_none (by omega)]

theorem labelLe_set (g : QGrid) (ig1 ig2 : IGrid) (i j : ℕ) (v1 v2 : ℤ)
    (hig1 : IgWF g ig1) (hig2 : IgWF g ig2) (h : LabelLe ig1 ig2)
    (hv1 : v1 ≠ -1) (hv2 : v2 ≠ -1) (hv12 : v1 = 1 → v2 = 1) :
    LabelLe (setLabel ig1 i j v1) (setLabel ig2 i j v2) := by
  intro i1 j1
  by_cases hij : i1 = i ∧ j1 = j
  · obtain ⟨rfl, rfl⟩ := hij
    by_cases hin : i1 < ig1.length ∧ j1 < (ig1.getD i1 []).length
    · have hin2 : i1 < ig2.length ∧ j1 < (ig2.getD i1 []).length :=
        ⟨by rw [hig2.1, ← hig1.1]; exact hin.1,
         by rw [← row_len_eq g ig1 ig2 hig1 hig2 i1]; exact hin.2⟩
      rw [getLabel_setLabel_self _ _ _ _ hin.1 hin.2,
          getLabel_setLabel_self _ _ _ _ hin2.1 hin2.2]
      exact ⟨iff_of_false hv1 hv2, hv12⟩
    · have hin2 : ¬(i1 < ig2.length ∧ j1 < (ig2.getD i1 []).length) := by
        intro ⟨a, b⟩
        exact hin ⟨by rw [hig1.1, ← hig2.1]; exact a,
          by rw [row_len_eq g ig1 ig2 hig1 hig2 i1]; exact b⟩
      rw [getLabel_setLabel_oob _ _ _ _ hin, getLabel_setLabel_oob _ _ _ _ hin2]
      exact h i1 j1
  · rw [getLabel_setLabel_ne _ _ _ _ _ _ hij, getLabel_setLabel_ne _ _ _ _ _ _ hij]
    exact h i1 j1

theorem labelRange_set (ig : IGrid) (i j : ℕ) (v : ℤ) (h : LabelRange ig)
    (hv : v = 0 ∨ v = 1) : LabelRange (setLabel ig i j v) := by
  intro i1 j1
  rcases getLabel_setLabel_or ig i j i1 j1 v with he | he <;> rw [he]
  · rcases hv with rfl | rfl
    · exact Or.inr (Or.inl rfl)
    · exact Or.inr (Or.inr rfl)
  · exact h i1 j1

theorem visitNeighbor_pair (t1 t2 : ℚ) (g : QGrid) (h : ℚ) (ct1 ct2 : ℤ)
    (s1 s2 : FGState) (ni nj : ℕ) (h0 : 0 ≤ t1) (h12 : t1 ≤ t2)
    (hct1 : ct1 = 0 ∨ ct1 = 1) (hct2 : ct2 = 0 ∨ ct2 = 1) (hct12 : ct1 = 1 → ct2 = 1)
    (hrel : StateRel g s1 s2) :
    StateRel g (visitNeighbor t1 g h ct1 s1 ni nj) (visitNeighbor t2 g h ct2 s2 ni nj) := by
  obtain ⟨hq, hcnt, hig1, hig2, hr1, hr2, hle⟩ := hrel
  have hwrite : ∀ v1 v2 : ℤ, v1 = 0 ∨ v1 = 1 → v2 = 0 ∨ v2 = 1 → (v1 = 1 → v2 = 1) →
      StateRel g
        ⟨setLabel s1.ig ni nj v1, s1.q ++ [(ni, nj, getCell g ni nj)], s1.count - 1,
         s1.lab_log ++ [(ni, nj)], s1.passes⟩
        ⟨setLabel s2.ig ni nj v2, s2.q ++ [(ni, nj, getCell g ni nj)], s2.count - 1,
         s2.lab_log ++ [(ni, nj)], s2.passes⟩ := by
    intro v1 v2 hv1 hv2 hv12
    refine ⟨by rw [hq], by rw [hcnt], igWF_setLabel g s1.ig ni nj v1 hig1,
      igWF_setLabel g s2.ig ni nj v2 hig2, labelRange_set s1.ig ni nj v1 hr1 hv1,
      labelRange_set s2.ig ni nj v2 hr2 hv2, ?_⟩
    apply labelLe_set g s1.ig s2.ig ni nj v1 v2 hig1 hig2 hle
    · rcases hv1 with rfl | rfl <;> decide
    · rcases hv2 with rfl | rfl <;> decide
    · exact hv12
  by_cases hg1 : getLabel s1.ig ni nj ≠ -1 ∨ getCell g ni nj = NODATA
  · have hg2 : getLabel s2.ig ni nj ≠ -1 ∨ getCell g ni nj = NODATA := by
      rcases hg1 with ha | hb
      · exact Or.inl (fun h2 => ha ((hle ni nj).1.mpr h2))
      · exact Or.inr hb
    unfold visitNeighbor
    rw [if_pos hg1, if_pos hg2]
    exact ⟨hq, hcnt, hig1, hig2, hr1, hr2, hle⟩
  · have hg2 : ¬(getLabel s2.ig ni nj ≠ -1 ∨ getCell g ni nj = NODATA) := by
      intro hcon
      apply hg1
      rcases hcon with ha | hb
      · exact Or.inl (fun h1 => ha ((hle ni nj).1.mp h1))
      · exact Or.inr hb
    unfold visitNeighbor
    rw [if_neg hg1, if_neg hg2]
    by_cases hA : getCell g ni nj - h ≤ t1 ∧ 0 ≤ getCell g ni nj - h
    · rw [if_pos hA, if_pos ⟨le_trans hA.1 h12, hA.2⟩]
      exact hwrite ct1 ct2 hct1 hct2 hct12
    · by_cases hB : t1 < getCell g ni nj - h
      · rw [if_neg hA, if_pos hB]
        by_cases hC : getCell g ni nj - h ≤ t2 ∧ 0 ≤ getCell g ni nj - h
        · rw [if_pos hC]
          exact hwrite 0 ct2 (Or.inl rfl) hct2 (by intro hcon; exact absurd hcon (by decide))
        · have hD : t2 < getCell g ni nj - h := by
            have hpos : 0 ≤ getCell g ni nj - h := le_of_lt (lt_of_le_of_lt h0 hB)
            by_contra hnc
            exact hC ⟨le_of_not_lt hnc, hpos⟩
          rw [if_neg hC, if_pos hD]
          exact hwrite 0 0 (Or.inl rfl) (Or.inl rfl) (by intro hcon; exact absurd hcon (by decide))
      · have hneg : getCell g ni nj - h < 0 := by
          rcases not_and_or.mp hA with ha | hb
          · exact absurd (le_of_not_lt hB) ha
          · exact lt_of_not_le hb
        rw [if_neg hA, if_neg hB]
        have hA2 : ¬(getCell g ni nj - h ≤ t2 ∧ 0 ≤ getCell g ni nj - h) := by
          intro ⟨_, hp⟩
          exact absurd hneg (not_lt_of_le hp)
        have hB2 : ¬(t2 < getCell g ni nj - h) := by
          intro hcon
          have : (0 : ℚ) ≤ getCell g ni nj - h := le_of_lt (lt_of_le_of_lt (le_trans h0 h12) hcon)
          exact absurd hneg (not_lt_of_le this)
        rw [if_neg hA2, if_neg hB2]
        exact ⟨hq, hcnt, hig1, hig2, hr1, hr2, hle⟩

theorem foldl_pair {α β : Type _} (f1 f2 : β → α → β) (R : β → β → Prop) :
    ∀ (l : List α), (∀ b1 b2 a, a ∈ l → R b1 b2 → R (f1 b1 a) (f2 b2 a)) →
    ∀ b1 b2, R b1 b2 → R (l.foldl f1 b1) (l.foldl f2 b2) := by
  intro l
  induction l with
  | nil => intro _ b1 b2 h; exact h
  | cons a t ih =>
    intro hstep b1 b2 h
    rw [List.foldl_cons, List.foldl_cons]
    exact ih (fun x1 x2 y hy hr => hstep x1 x2 y (List.mem_cons_of_mem _ hy) hr) _ _
      (hstep b1 b2 a (List.mem_cons_self a t) h)

theorem neighborStep_pair (t1 t2 : ℚ) (g : QGrid) (ci cj : ℕ) (h : ℚ) (ct1 ct2 : ℤ)
    (s1 s2 : FGState) (d : ℤ × ℤ) (h0 : 0 ≤ t1) (h12 : t1 ≤ t2)
    (hct1 : ct1 = 0 ∨ ct1 = 1) (hct2 : ct2 = 0 ∨ ct2 = 1) (hct12 : ct1 = 1 → ct2 = 1)
    (hrel : StateRel g s1 s2) :
    StateRel g (neighborStep t1 g ci cj h ct1 s1 d) (neighborStep t2 g ci cj h ct2 s2 d) := by
  unfold neighborStep
  by_cases hb : 0 ≤ (ci : ℤ) + d.1 ∧ 0 ≤ (cj : ℤ) + d.2 ∧
      (ci : ℤ) + d.1 < (g.length : ℤ) ∧ (cj : ℤ) + d.2 < (numCols g : ℤ)
  · rw [if_pos hb, if_pos hb]
    exact visitNeighbor_pair t1 t2 g h ct1 ct2 s1 s2 _ _ h0 h12 hct1 hct2 hct12 hrel
  · rw [if_neg hb, if_neg hb]
    exact hrel

theorem bfsStep_pair (t1 t2 : ℚ) (g : QGrid) (c : ℕ × ℕ × ℚ) (s1 s2 : FGState)
    (h0 : 0 ≤ t1) (h12 : t1 ≤ t2) (hrel : StateRel g s1 s2) :
    StateRel g (bfsStep t1 g c s1) (bfsStep t2 g c s2) := by
  rw [bfsStep_eq, bfsStep_eq]
  have hct1 : (if getLabel s1.ig c.1 c.2.1 = 0 then (0 : ℤ) else 1) = 0 ∨
      (if getLabel s1.ig c.1 c.2.1 = 0 then (0 : ℤ) else 1) = 1 := by
    split
    · exact Or.inl rfl
    · exact Or.inr rfl
  have hct2 : (if getLabel s2.ig c.1 c.2.1 = 0 then (0 : ℤ) else 1) = 0 ∨
      (if getLabel s2.ig c.1 c.2.1 = 0 then (0 : ℤ) else 1) = 1 := by
    split
    · exact Or.inl rfl
    · exact Or.inr rfl
  have hct12 : (if getLabel s1.ig c.1 c.2.1 = 0 then (0 : ℤ) else 1) = 1 →
      (if getLabel s2.ig c.1 c.2.1 = 0 then (0 : ℤ) else 1) = 1 := by
    intro h1
    by_cases hz1 : getLabel s1.ig c.1 c.2.1 = 0
    · rw [if_pos hz1] at h1
      exact absurd h1 (by decide)
    · rw [if_neg ?_]
      rcases hrel.2.2.2.2.1 c.1 c.2.1 with hm | hm | hm
      · intro hz2
        have := (hrel.2.2.2.2.2.2 c.1 c.2.1).1.mp hm
        omega
      · exact absurd hm hz1
      · intro hz2
        have := (hrel.2.2.2.2.2.2 c.1 c.2.1).2 hm
        omega
  exact foldl_pair _ _ (StateRel g) dirs
    (fun b1 b2 d _ hr => neighborStep_pair t1 t2 g c.1 c.2.1 c.2.2 _ _ b1 b2 d h0 h12
      hct1 hct2 hct12 hr) s1 s2 hrel

theorem seedStep_pair (g : QGrid) (s1 s2 : FGState) (hrel : StateRel g s1 s2) :
    StateRel g (seedStep g s1) (seedStep g s2) := by
  obtain ⟨hq, hcnt, hig1, hig2, hr1, hr2, hle⟩ := hrel
  have hsame : seedSearch g s1.ig = seedSearch g s2.ig :=
    seedSearch_congr g s1.ig s2.ig (fun i j => (hle i j).1)
  unfold seedStep
  rw [hsame]
  refine ⟨by rw [hq], by rw [hcnt], igWF_setLabel g s1.ig _ _ 1 hig1,
    igWF_setLabel g s2.ig _ _ 1 hig2, labelRange_set s1.ig _ _ 1 hr1 (Or.inr rfl),
    labelRange_set s2.ig _ _ 1 hr2 (Or.inr rfl), ?_⟩
  exact labelLe_set g s1.ig s2.ig _ _ 1 1 hig1 hig2 hle (by decide) (by decide) (fun _ => rfl)

theorem fgLoop_pair (g : QGrid) (t1 t2 : ℚ) (h0 : 0 ≤ t1) (h12 : t1 ≤ t2) :
    ∀ (fuel : ℕ) (s1 s2 : FGState), StateRel g s1 s2 →
      ∀ r1, fgLoop t1 g fuel s1 = some r1 →
      ∃ r2, fgLoop t2 g fuel s2 = some r2 ∧ StateRel g r1 r2 := by
  intro fuel
  induction fuel with
  | zero =>
    intro s1 s2 _ r1 hcon
    exact absurd hcon (by rw [show fgLoop t1 g 0 s1 = none from rfl]; exact Option.noConfusion)
  | succ n ih =>
    intro s1 s2 hrel r1 hr1
    have hq12 := hrel.1
    rw [fgLoop_succ] at hr1
    rw [fgLoop_succ]
    cases hq1 : s1.q with
    | nil =>
      have hq2 : s2.q = [] := by rw [← hq12, hq1]
      rw [hq1] at hr1
      rw [hq2]
      simp only [] at hr1 ⊢
      by_cases hc : 0 < s1.count
      · rw [if_pos hc] at hr1
        rw [if_pos (by rw [← hrel.2.1]; exact hc)]
        exact ih (seedStep g s1) (seedStep g s2) (seedStep_pair g s1 s2 hrel) r1 hr1
      · rw [if_neg hc] at hr1
        rw [if_neg (by rw [← hrel.2.1]; exact hc)]
        exact ⟨s2, rfl, (Option.some.inj hr1) ▸ hrel⟩
    | cons c rest =>
      have hq2 : s2.q = c :: rest := by rw [← hq12, hq1]
      rw [hq1] at hr1
      rw [hq2]
      simp only [] at hr1 ⊢
      have hrel2 : StateRel g ⟨s1.ig, rest, s1.count, s1.lab_log, s1.passes⟩
          ⟨s2.ig, rest, s2.count, s2.lab_log, s2.passes⟩ :=
        ⟨rfl, hrel.2.1, hrel.2.2.1, hrel.2.2.2.1, hrel.2.2.2.2.1,
         hrel.2.2.2.2.2.1, hrel.2.2.2.2.2.2⟩
      exact ih _ _ (bfsStep_pair t1 t2 g c _ _ h0 h12 hrel2) r1 hr1

/-- C3 (amended): for a fixed DepthGrid and thresholds 0 <= t1 <= t2, if
the run with t1 returns a grid then the run with t2 returns one as well,
every Ground cell of the first is Ground in the second, and a cell is
Unclassified in the first exactly when it is in the second, so the only
changes a threshold increase can cause are Building to Ground. -/
theorem c3_monotone_nonneg (g : QGrid) (t1 t2 : ℚ) (h0 : 0 ≤ t1) (h12 : t1 ≤ t2)
    (ig1 : IGrid) (h1 : find_ground g t1 = some ig1) :
    ∃ ig2, find_ground g t2 = some ig2 ∧
      ∀ i j, (getLabel ig1 i j = 1 → getLabel ig2 i j = 1) ∧
        (getLabel ig1 i j = -1 ↔ getLabel ig2 i j = -1) := by
  unfold find_ground find_ground_run at h1 ⊢
  obtain ⟨r1, hr1, hr1ig⟩ := Option.map_eq_some'.mp h1
  have hrel0 : StateRel g (seedStep g (initState g)) (seedStep g (initState g)) := by
    have higE : IgWF g (seedStep g (initState g)).ig :=
      igWF_setLabel g _ _ _ 1 (igWF_initState g)
    have hrE : LabelRange (seedStep g (initState g)).ig := by
      show LabelRange (setLabel (initState g).ig _ _ 1)
      apply labelRange_set _ _ _ 1 ?_ (Or.inr rfl)
      intro i j
      exact Or.inl (getLabel_initState g i j)
    exact ⟨rfl, rfl, higE, higE, hrE, hrE, fun i j => ⟨Iff.rfl, id⟩⟩
  obtain ⟨r2, hr2, hrel⟩ := fgLoop_pair g t1 t2 h0 h12 (fgFuel g)
    (seedStep g (initState g)) (seedStep g (initState g)) hrel0 r1 hr1
  refine ⟨r2.ig, by rw [hr2]; rfl, ?_⟩
  intro i j
  have hle := hrel.2.2.2.2.2.2 i j
  rw [← hr1ig]
  exact ⟨hle.2, hle.1⟩

/-- Witness for C3 on the grid [[0, 1]] with thresholds 0 and 1. -/
theorem c3_monotone_nonneg_witness :
    ∃ ig2, find_ground [[0, 1]] 1 = some ig2 ∧
      ∀ i j, (getLabel [[1, 0]] i j = 1 → getLabel ig2 i j = 1) ∧
        (getLabel [[1, 0]] i j = -1 ↔ getLabel ig2 i j = -1) :=
  c3_monotone_nonneg [[0, 1]] 0 1 (by decide) (by decide) [[1, 0]] (by decide)

/-! The expansion trichotomy, with the branch priority of the source. -/

/-- C6 (amended): for an unvisited non-NODATA neighbor with slope =
neighborElevation - poppedHeight, the source's branch order (lines
990-1004) gives: slope in [0, threshold] writes the popped cell's
converted label and enqueues; otherwise slope > threshold writes Building
(0) and enqueues, which covers negative slopes above a negative
threshold; otherwise (slope < 0 and slope <= threshold) nothing happens.
The final conjunct records that bfsStep feeds visitNeighbor the C++ bool
conversion of the popped cell's label (0 stays 0, anything else is 1). -/
theorem c6_expansion_trichotomy (t : ℚ) (g : QGrid) (h : ℚ) (ct : ℤ) (s : FGState)
    (ni nj : ℕ) (hlab : getLabel s.ig ni nj = -1) (hnod : getCell g ni nj ≠ NODATA) :
    (0 ≤ getCell g ni nj - h → getCell g ni nj - h ≤ t →
      visitNeighbor t g h ct s ni nj =
        ⟨setLabel s.ig ni nj ct, s.q ++ [(ni, nj, getCell g ni nj)], s.count - 1,
         s.lab_log ++ [(ni, nj)], s.passes⟩) ∧
    (t < getCell g ni nj - h →
      visitNeighbor t g h ct s ni nj =
        ⟨setLabel s.ig ni nj 0, s.q ++ [(ni, nj, getCell g ni nj)], s.count - 1,
         s.lab_log ++ [(ni, nj)], s.passes⟩) ∧
    (getCell g ni nj - h < 0 → getCell g ni nj - h ≤ t →
      visitNeighbor t g h ct s ni nj = s) ∧
    (∀ (c : ℕ × ℕ × ℚ) (s1 : FGState), bfsStep t g c s1 =
      dirs.foldl (neighborStep t g c.1 c.2.1 c.2.2
        (if getLabel s1.ig c.1 c.2.1 = 0 then 0 else 1)) s1) := by
  have hg : ¬(getLabel s.ig ni nj ≠ -1 ∨ getCell g ni nj = NODATA) := by
    intro hcon
    rcases hcon with ha | hb
    · exact ha hlab
    · exact hnod hb
  refine ⟨?_, ?_, ?_, fun c s1 => rfl⟩
  · intro hp hle
    unfold visitNeighbor
    rw [if_neg hg, if_pos ⟨hle, hp⟩]
  · intro hgt
    have hA : ¬(getCell g ni nj - h ≤ t ∧ 0 ≤ getCell g ni nj - h) := by
      intro ⟨hc1, _⟩
      exact absurd hgt (not_lt_of_le hc1)
    unfold visitNeighbor
    rw [if_neg hg, if_neg hA, if_pos hgt]
  · intro hneg hle
    have hA : ¬(getCell g ni nj - h ≤ t ∧ 0 ≤ getCell g ni nj - h) := by
      intro ⟨_, hc2⟩
      exact absurd hneg (not_lt_of_le hc2)
    unfold visitNeighbor
    rw [if_neg hg, if_neg hA, if_neg (not_lt_of_le hle)]

/-- Witness for C6 at threshold 1, grid [[0, 1]], popped height 0, neighbor (0, 1). -/
theorem c6_expansion_trichotomy_witness :
    (0 ≤ getCell [[0, 1]] 0 1 - 0 → getCell [[0, 1]] 0 1 - 0 ≤ 1 →
      visitNeighbor 1 [[0, 1]] 0 1 ⟨[[1, -1]], [], 1, [(0, 0)], 1⟩ 0 1 =
        ⟨setLabel [[1, -1]] 0 1 1,
         (⟨[[1, -1]], [], 1, [(0, 0)], 1⟩ : FGState).q ++ [(0, 1, getCell [[0, 1]] 0 1)],
         (⟨[[1, -1]], [], 1, [(0, 0)], 1⟩ : FGState).count - 1,
         (⟨[[1, -1]], [], 1, [(0, 0)], 1⟩ : FGState).lab_log ++ [(0, 1)], 1⟩) ∧
    (1 < getCell [[0, 1]] 0 1 - 0 →
      visitNeighbor 1 [[0, 1]] 0 1 ⟨[[1, -1]], [], 1, [(0, 0)], 1⟩ 0 1 =
        ⟨setLabel [[1, -1]] 0 1 0,
         (⟨[[1, -1]], [], 1, [(0, 0)], 1⟩ : FGState).q ++ [(0, 1, getCell [[0, 1]] 0 1)],
         (⟨[[1, -1]], [], 1, [(0, 0)], 1⟩ : FGState).count - 1,
         (⟨[[1, -1]], [], 1, [(0, 0)], 1⟩ : FGState).lab_log ++ [(0, 1)], 1⟩) ∧
    (getCell [[0, 1]] 0 1 - 0 < 0 → getCell [[0, 1]] 0 1 - 0 ≤ 1 →
      visitNeighbor 1 [[0, 1]] 0 1 ⟨[[1, -1]], [], 1, [(0, 0)], 1⟩ 0 1 =
        ⟨[[1, -1]], [], 1, [(0, 0)], 1⟩) ∧
    (∀ (c : ℕ × ℕ × ℚ) (s1 : FGState), bfsStep 1 [[0, 1]] c s1 =
      dirs.foldl (neighborStep 1 [[0, 1]] c.1 c.2.1 c.2.2
        (if getLabel s1.ig c.1 c.2.1 = 0 then 0 else 1)) s1) :=
  c6_expansion_trichotomy 1 [[0, 1]] 0 1 ⟨[[1, -1]], [], 1, [(0, 0)], 1⟩ 0 1
    (by decide) (by decide)

end LidarView
